import Mathlib

/-!
# Upload gateway (src/index.js): shallow embedding and verified properties

The program is a single Express handler, POST /upload, built from four helpers:
joinUrl, randToken, parseBase64 and the inline content-type / key code of the
handler.  JavaScript strings are sequences of UTF-16 code units; they are modelled
as lists of natural numbers (each unit below 65536).  Thrown exceptions are modelled
with Except (the error carries the message of the thrown Error) or Option.

Platform functions used by the source (regular expression matching,
Buffer.from(s, "base64"), encodeURIComponent, String.prototype.split) are modelled
after their ECMAScript / Node.js semantics.  The mime-types table, the random
source and the object store are parameters of the handler.
-/

namespace UploadGateway

/-! ## JavaScript strings -/

/-- A JavaScript string: the list of its UTF-16 code units. -/
abbrev JsString := List Nat

/-- The code units of a string literal whose characters lie in the Basic Multilingual
Plane, where every character is one code unit. -/
def js (s : String) : JsString := s.toList.map Char.toNat

/-- Code unit of the slash character. -/
def slash : Nat := 47

/-- Code unit of the padding character =. -/
def padChar : Nat := 61

/-- The regular expression class \s of ECMAScript: WhiteSpace and LineTerminator code units. -/
def isWhitespace (c : Nat) : Bool :=
  c == 9 || c == 10 || c == 11 || c == 12 || c == 13 || c == 32 || c == 160
    || c == 5760 || (8192 ≤ c && c ≤ 8202) || c == 8232 || c == 8233
    || c == 8239 || c == 8287 || c == 12288 || c == 65279

/-- Line terminators, the code units that the regular expression atom . does not match. -/
def isLineTerminator (c : Nat) : Bool :=
  c == 10 || c == 13 || c == 8232 || c == 8233

/-- The class [a-zA-Z0-9+\-_.\/] of the media type group in parseBase64. -/
def isMediaTypeChar (c : Nat) : Bool :=
  (97 ≤ c && c ≤ 122) || (65 ≤ c && c ≤ 90) || (48 ≤ c && c ≤ 57)
    || c == 43 || c == 45 || c == 95 || c == 46 || c == 47

/-- The class [A-Za-z0-9+/] of the validation expression in parseBase64. -/
def isBase64Char (c : Nat) : Bool :=
  (65 ≤ c && c ≤ 90) || (97 ≤ c && c ≤ 122) || (48 ≤ c && c ≤ 57) || c == 43 || c == 47

/-- Matching a literal at the start of a string: the rest of the string after the
literal, or none when the string does not start with it. -/
def dropLiteral : JsString → JsString → Option JsString
  | [], s => some s
  | _ :: _, [] => none
  | l :: ls, c :: cs => if l = c then dropLiteral ls cs else none

/-- The call s.replace(/\/+$/, "") of joinUrl and of the handler.  The expression is
tried at each start position from the left; it matches at a position exactly when the
rest of the string from there is one or more slashes, and the match is removed. -/
def stripTrailingSlashes : JsString → JsString
  | [] => []
  | c :: cs => if c = slash ∧ cs.all (fun d => d == slash) then [] else c :: stripTrailingSlashes cs

/-- The call s.split("/"): the segments between slashes; the empty string gives one
empty segment. -/
def splitSlash : JsString → List JsString
  | [] => [[]]
  | c :: cs =>
    if c = slash then [] :: splitSlash cs
    else match splitSlash cs with
      | [] => [[c]]
      | seg :: rest => (c :: seg) :: rest

/-- The call segs.join("/"). -/
def joinSlash : List JsString → JsString
  | [] => []
  | [seg] => seg
  | seg :: rest => seg ++ slash :: joinSlash rest

/-- The call s.replace(/\s/g, "") of parseBase64: every whitespace code unit is removed. -/
def stripWhitespace (s : JsString) : JsString := s.filter (fun c => !isWhitespace c)

/-! ## encodeURIComponent -/

/-- Upper-case hexadecimal digit of a value below 16. -/
def hexDigit (n : Nat) : Nat := if n < 10 then 48 + n else 55 + n

/-- The escape %XX of one octet. -/
def percentOctet (b : Nat) : JsString := [37, hexDigit (b / 16), hexDigit (b % 16)]

/-- The UTF-8 octets of a code point. -/
def utf8Octets (cp : Nat) : List Nat :=
  if cp < 128 then [cp]
  else if cp < 2048 then [192 + cp / 64, 128 + cp % 64]
  else if cp < 65536 then [224 + cp / 4096, 128 + cp / 64 % 64, 128 + cp % 64]
  else [240 + cp / 262144, 128 + cp / 4096 % 64, 128 + cp / 64 % 64, 128 + cp % 64]

/-- The unreserved set of encodeURIComponent: A-Z a-z 0-9 - _ . ! ~ * ' ( ). -/
def isUriUnreserved (c : Nat) : Bool :=
  (65 ≤ c && c ≤ 90) || (97 ≤ c && c ≤ 122) || (48 ≤ c && c ≤ 57)
    || c == 45 || c == 95 || c == 46 || c == 33 || c == 126 || c == 42 || c == 39
    || c == 40 || c == 41

/-- A leading (high) surrogate code unit. -/
def isHighSurrogate (c : Nat) : Bool := 55296 ≤ c && c ≤ 56319

/-- A trailing (low) surrogate code unit. -/
def isLowSurrogate (c : Nat) : Bool := 56320 ≤ c && c ≤ 57343

/-- The built-in encodeURIComponent (the abstract operation Encode of ECMAScript):
unreserved code units are kept, every other code point is written as the escapes of
its UTF-8 octets, and a surrogate that is not part of a pair throws URIError (none). -/
def encodeURIComponent : JsString → Option JsString
  | [] => some []
  | c :: cs =>
    if isUriUnreserved c then (encodeURIComponent cs).map (fun r => c :: r)
    else if isLowSurrogate c then none
    else if isHighSurrogate c then
      match cs with
      | [] => none
      | d :: ds =>
        if isLowSurrogate d then
          (encodeURIComponent ds).map (fun r =>
            ((utf8Octets ((c - 55296) * 1024 + (d - 56320) + 65536)).map percentOctet).flatten ++ r)
        else none
    else (encodeURIComponent cs).map (fun r => ((utf8Octets c).map percentOctet).flatten ++ r)

/-- Applying encodeURIComponent to every segment (Array.prototype.map); the first
segment that throws makes the whole call throw. -/
def encodeSegments : List JsString → Option (List JsString)
  | [] => some []
  | seg :: rest =>
    match encodeURIComponent seg with
    | none => none
    | some e => (encodeSegments rest).map (fun es => e :: es)

/-- The function joinUrl of src/index.js, lines 38-42. -/
def joinUrl (base key : JsString) : Option JsString :=
  let b := stripTrailingSlashes base
  match encodeSegments (splitSlash key) with
  | none => none
  | some segs => some (b ++ slash :: joinSlash segs)

/-! ## randToken -/

/-- The alphabet of randToken. -/
def alphabet : JsString := js "ABCDEFGHIJKLMNOPQRSTUVWXYZ0123456789"

/-- The function randToken of src/index.js, lines 57-61, applied to the bytes that
crypto.randomBytes(len) returned. -/
def randToken (buf : List Nat) : JsString :=
  buf.map (fun b => alphabet.getD (b % alphabet.length) 0)

/-! ## Buffer.from(s, "base64") -/

/-- The value of a base64 symbol for the Node.js decoder, which reads both the
standard and the URL-safe alphabet; none for any other code unit. -/
def unbase64 (c : Nat) : Option Nat :=
  if 65 ≤ c ∧ c ≤ 90 then some (c - 65)
  else if 97 ≤ c ∧ c ≤ 122 then some (c - 71)
  else if 48 ≤ c ∧ c ≤ 57 then some (c + 4)
  else if c = 43 ∨ c = 45 then some 62
  else if c = 47 ∨ c = 95 then some 63
  else none

/-- The 6-bit values read by the Node.js decoder: code units outside the alphabet
are skipped and reading stops at the first padding character. -/
def sextets : JsString → List Nat
  | [] => []
  | c :: cs =>
    if c = padChar then []
    else match unbase64 c with
      | some v => v :: sextets cs
      | none => sextets cs

/-- Packing 6-bit values into octets: every full group of four gives three octets, a
last group of three gives two, of two gives one, and a single left-over value gives
none (its six bits are dropped, as are the unused low bits of a short group). -/
def packSextets : List Nat → List Nat
  | a :: b :: c :: d :: rest =>
    (a * 4 + b / 16) :: (b % 16 * 16 + c / 4) :: (c % 4 * 64 + d) :: packSextets rest
  | [a, b, c] => [a * 4 + b / 16, b % 16 * 16 + c / 4]
  | [a, b] => [a * 4 + b / 16]
  | _ => []

/-- The call Buffer.from(s, "base64") of Node.js: a lenient decoder that never
throws, ignores code units outside the alphabet, stops at the first padding
character and does not require the length to be a multiple of four. -/
def bufferFromBase64 (s : JsString) : List Nat := packSextets (sextets s)

/-! ## parseBase64 -/

/-- The result object of parseBase64. -/
structure Parsed where
  buffer : List Nat
  mimeType : JsString
  deriving DecidableEq, Repr

/-- The match of /^data:([a-zA-Z0-9+\-_.\/]+);base64,(.+)$/ against the input: the
two captured groups, or none when the expression does not match.  The class of
group 1 does not contain the semicolon, so group 1 is the longest run of class
characters after the literal data: and no shorter run can be followed by a semicolon;
group 2 is the non-empty rest of the input and must be free of line terminators
(the atom . does not match them and $ matches only at the end of the input). -/
def matchDataUri (input : JsString) : Option (JsString × JsString) :=
  match dropLiteral (js "data:") input with
  | none => none
  | some r =>
    let m := r.takeWhile isMediaTypeChar
    if m = [] then none
    else match dropLiteral (js ";base64,") (r.dropWhile isMediaTypeChar) with
      | none => none
      | some payload =>
        if payload ≠ [] ∧ payload.all (fun c => !isLineTerminator c) then some (m, payload)
        else none

/-- The tail =*$ of the validation expression. -/
def allPadding : JsString → Bool
  | [] => true
  | c :: cs => c == padChar && allPadding cs

/-- The tail [A-Za-z0-9+/]*=*$ of the validation expression. -/
def base64Tail : JsString → Bool
  | [] => true
  | c :: cs => if isBase64Char c then base64Tail cs else c == padChar && allPadding cs

/-- The test /^[A-Za-z0-9+/]+=*$/ of parseBase64. -/
def isValidBase64 : JsString → Bool
  | [] => false
  | c :: cs => isBase64Char c && base64Tail cs

/-- A JavaScript value as the handler observes it: a string, or a value of another
type (undefined, null, boolean, number, array, object) of which only the truthiness
is ever inspected. -/
inductive JsValue where
  | str (s : JsString)
  | other (truthy : Bool)
  deriving DecidableEq, Repr

/-- The function parseBase64 of src/index.js, lines 63-85.  An error carries the
message of the thrown Error. -/
def parseBase64 (input : JsValue) : Except JsString Parsed :=
  match input with
  | .other _ => .error (js "Empty base64 string")
  | .str [] => .error (js "Empty base64 string")
  | .str (c :: cs) =>
    let input := c :: cs
    let (mimeType, base64) :=
      match matchDataUri input with
      | some (m, payload) => (m, payload)
      | none => ([], input)
    let base64 := stripWhitespace base64
    if isValidBase64 base64 then .ok { buffer := bufferFromBase64 base64, mimeType := mimeType }
    else .error (js "Invalid base64 data")

/-! ## The handler of POST /upload -/

/-- The arguments of one PutObjectCommand sent to the object store (the bucket is a
constant of the process). -/
structure PutObject where
  key : JsString
  body : List Nat
  contentType : JsString
  deriving DecidableEq, Repr

/-- A value of a JSON response body. -/
inductive Json where
  | bool (b : Bool)
  | str (s : JsString)
  | num (n : Nat)
  deriving DecidableEq, Repr

/-- A response sent with res.status(..).json(..): the status code and the members of
the JSON object, in order. -/
structure Response where
  status : Nat
  body : List (String × Json)
  deriving DecidableEq, Repr

/-- What the handler reads from its surroundings.  The table of the mime-types
package is not part of the repository and is a parameter: mimeExtension gives the
result of mime.extension, with none for the result false.  The two draws are the
bytes returned by crypto.randomBytes(8) and crypto.randomBytes(6).  The store
answers a write with none (resolved) or with the message of the error it rejects
with; presigning resolves to a URL or rejects with a message. -/
structure Env where
  mimeExtension : JsString → Option JsString
  publicBaseUrl : Option JsString
  draw8 : List Nat
  draw6 : List Nat
  s3Put : PutObject → Option JsString
  getSignedUrl : JsString → Except JsString JsString

/-- The two members that the handler destructures from req.body; an absent member
is the value undefined, that is, other false. -/
structure Request where
  imageBase64 : JsValue
  folder : JsValue
  deriving DecidableEq, Repr

/-- What one run of the handler did: the writes it sent to the store and the
responses it sent to the client, in order. -/
structure Run where
  puts : List PutObject
  responses : List Response
  deriving DecidableEq, Repr

/-- Truthiness of a value: a string is truthy when it is not empty. -/
def truthy : JsValue → Bool
  | .str s => !s.isEmpty
  | .other t => t

/-- The response of line 90. -/
def missingResponse : Response :=
  { status := 400, body := [("ok", .bool false), ("error", .str (js "Missing 'imageBase64'"))] }

/-- The response of the catch block, line 116: e.message || "Upload failed". -/
def failureResponse (message : JsString) : Response :=
  { status := 400,
    body := [("ok", .bool false),
             ("error", .str (if message.isEmpty then js "Upload failed" else message))] }

/-- The response of line 113; res.json answers with status 200. -/
def successResponse (key url contentType : JsString) (size : Nat) : Response :=
  { status := 200,
    body := [("ok", .bool true), ("key", .str key), ("url", .str url),
             ("contentType", .str contentType), ("size", .num size)] }

/-- Line 93: mimeType || "application/octet-stream". -/
def resolveContentType (mimeType : JsString) : JsString :=
  if mimeType.isEmpty then js "application/octet-stream" else mimeType

/-- Line 94: the set safeExts. -/
def safeExts : List JsString := [js "png", js "jpg", js "jpeg", js "webp"]

/-- Lines 95-96: mime.extension(contentType) || "png", then the clamp to safeExts. -/
def resolveExt (mimeExtension : JsString → Option JsString) (contentType : JsString) : JsString :=
  let ext :=
    match mimeExtension contentType with
    | some e => if e.isEmpty then js "png" else e
    | none => js "png"
  if safeExts.contains ext then ext else js "png"

/-- The first interpolation of line 98: folder ? folder.replace(/\/+$/, "") + "/" : "".
A truthy value that is not a string has no method replace and the call throws. -/
def folderPart : JsValue → Except JsString JsString
  | .str [] => .ok []
  | .str (c :: cs) => .ok (stripTrailingSlashes (c :: cs) ++ [slash])
  | .other false => .ok []
  | .other true => .error (js "folder.replace is not a function")

/-- Line 98: the storage key. -/
def makeKey (folderPart token1 token2 ext : JsString) : JsString :=
  folderPart ++ token1 ++ js "-" ++ token2 ++ js "." ++ ext

/-- Lines 109-111: the public URL when R2_PUBLIC_BASE_URL is set and not empty, a
presigned URL otherwise.  A URIError of joinUrl carries the message URI malformed. -/
def resolveUrl (env : Env) (key : JsString) : Except JsString JsString :=
  match env.publicBaseUrl with
  | none => env.getSignedUrl key
  | some base =>
    if base.isEmpty then env.getSignedUrl key
    else match joinUrl base key with
      | some url => .ok url
      | none => .error (js "URI malformed")

/-- The handler of POST /upload, src/index.js lines 87-118. -/
def upload (env : Env) (req : Request) : Run :=
  if !truthy req.imageBase64 then { puts := [], responses := [missingResponse] }
  else
    match parseBase64 req.imageBase64 with
    | .error message => { puts := [], responses := [failureResponse message] }
    | .ok parsed =>
      let contentType := resolveContentType parsed.mimeType
      let ext := resolveExt env.mimeExtension contentType
      match folderPart req.folder with
      | .error message => { puts := [], responses := [failureResponse message] }
      | .ok fp =>
        let key := makeKey fp (randToken env.draw8) (randToken env.draw6) ext
        let put : PutObject := { key := key, body := parsed.buffer, contentType := contentType }
        match env.s3Put put with
        | some message => { puts := [put], responses := [failureResponse message] }
        | none =>
          match resolveUrl env key with
          | .error message => { puts := [put], responses := [failureResponse message] }
          | .ok url =>
            { puts := [put],
              responses := [successResponse key url contentType parsed.buffer.length] }

/-! ## Notions used to state the properties -/

/-- The symbol of a 6-bit value in the standard base64 alphabet (RFC 4648). -/
def base64Symbol (v : Nat) : Nat :=
  if v < 26 then 65 + v
  else if v < 52 then 71 + v
  else if v < 62 then v - 4
  else if v = 62 then 43
  else 47

/-- Standard padded base64 encoding of a byte sequence (RFC 4648, section 4). -/
def base64Encode : List Nat → JsString
  | a :: b :: c :: rest =>
    base64Symbol (a / 4) :: base64Symbol (a % 4 * 16 + b / 16)
      :: base64Symbol (b % 16 * 4 + c / 64) :: base64Symbol (c % 64) :: base64Encode rest
  | [a, b] =>
    [base64Symbol (a / 4), base64Symbol (a % 4 * 16 + b / 16), base64Symbol (b % 16 * 4), padChar]
  | [a] => [base64Symbol (a / 4), base64Symbol (a % 4 * 16), padChar, padChar]
  | [] => []

/-- The data URI data:<media-type>;base64,<payload>. -/
def dataUri (mediaType payload : JsString) : JsString :=
  js "data:" ++ mediaType ++ js ";base64," ++ payload

/-- The head data:<media-type>;base64, of an input as the specification describes it:
the media type and what follows the head, or none when the input does not start with
such a head.  What follows the head is not constrained. -/
def dataUriHead (input : JsString) : Option (JsString × JsString) :=
  match dropLiteral (js "data:") input with
  | none => none
  | some r =>
    let m := r.takeWhile isMediaTypeChar
    if m = [] then none
    else match dropLiteral (js ";base64,") (r.dropWhile isMediaTypeChar) with
      | none => none
      | some rest => some (m, rest)

/-- The encoded text of an input: what remains after removing the head
data:<media-type>;base64, if there is one, and all whitespace. -/
def encodedText (input : JsString) : JsString :=
  stripWhitespace (match dataUriHead input with
    | some (_, rest) => rest
    | none => input)

/-- A text is malformed when it has a character other than A-Z, a-z, 0-9, +, / and =,
or when it has = anywhere except as trailing padding. -/
def malformedText (t : JsString) : Bool :=
  t.any (fun c => !isBase64Char c && c != padChar)
    || !allPadding (t.dropWhile (fun c => c != padChar))

/-- A string with all its trailing slashes removed, read from the end of the string. -/
def removeTrailingSlashes (s : JsString) : JsString :=
  (s.reverse.dropWhile (fun c => c == slash)).reverse

/-- The URL that the specification describes: the base with all trailing slashes
removed, a slash, and the segments of the key between slashes, each percent-encoded
on its own, joined again with slashes. -/
def joinUrlSpec (base key : JsString) : Option JsString :=
  (encodeSegments (splitSlash key)).map
    (fun segs => removeTrailingSlashes base ++ js "/" ++ List.intercalate (js "/") segs)

/-- The member of a JSON object with the given name, if any. -/
def Response.field (r : Response) (name : String) : Option Json :=
  (r.body.find? (fun kv => kv.1 == name)).map (fun kv => kv.2)

/-- Number of slashes in a string. -/
def countSlash (s : JsString) : Nat := s.count slash

/-- A string is well formed when it has no surrogate outside a pair
(String.prototype.isWellFormed). -/
def isWellFormed : JsString → Bool
  | [] => true
  | c :: cs =>
    if isLowSurrogate c then false
    else if isHighSurrogate c then
      match cs with
      | [] => false
      | d :: ds => isLowSurrogate d && isWellFormed ds
    else isWellFormed cs

/-- No segment between slashes is empty: the string does not start or end with a
slash and has no two slashes in a row. -/
def noEmptySegment (key : JsString) : Bool := (splitSlash key).all (fun seg => !seg.isEmpty)

/-! ## Concrete inputs -/

/-- The call toLowerCase() on the letters A-Z; a content type that the handler passes
to mime.extension holds ASCII characters only. -/
def toLowerAscii (s : JsString) : JsString :=
  s.map (fun c => if 65 ≤ c ∧ c ≤ 90 then c + 32 else c)

/-- Group 1 of EXTRACT_TYPE_REGEXP, /^\s*([^;\s]*)(?:;|\s|$)/, of the mime-types
package: leading whitespace is skipped and the type runs up to the first semicolon or
whitespace character. -/
def extractType (s : JsString) : JsString :=
  (s.dropWhile isWhitespace).takeWhile (fun c => !(c == 59 || isWhitespace c))

/-- An excerpt of the table of mime-types 3.x: the first extension that the table
lists for a lower-case type.  For image/jpeg the table lists jpg before jpeg.  A type
outside the excerpt is treated as unknown. -/
def firstExtensionV3 (mediaType : JsString) : Option JsString :=
  if mediaType = js "image/jpeg" then some (js "jpg")
  else if mediaType = js "image/png" then some (js "png")
  else if mediaType = js "image/webp" then some (js "webp")
  else if mediaType = js "text/html" then some (js "html")
  else if mediaType = js "application/octet-stream" then some (js "bin")
  else none

/-- The function mime.extension of mime-types 3.x over that excerpt: the result false
(none) for the empty string and for a type without extensions, otherwise the first
extension listed for the extracted, lower-cased type. -/
def mimeExtensionV3 (contentType : JsString) : Option JsString :=
  if contentType.isEmpty then none
  else firstExtensionV3 (toLowerAscii (extractType contentType))

/-- A configuration with a public base URL and a store that accepts every write. -/
def sampleEnv : Env :=
  { mimeExtension := mimeExtensionV3,
    publicBaseUrl := some (js "https://cdn.example/"),
    draw8 := [0, 1, 2, 3, 4, 5, 6, 7],
    draw6 := [30, 31, 32, 33, 34, 35],
    s3Put := fun _ => none,
    getSignedUrl := fun key => .ok (js "https://signed.example/" ++ key) }

/-- The same configuration with a store that rejects every write with an error whose
message is the empty string. -/
def silentFailureEnv : Env := { sampleEnv with s3Put := fun _ => some [] }

/-- The same configuration with a store that rejects every write with a message. -/
def failureEnv : Env := { sampleEnv with s3Put := fun _ => some (js "Access Denied") }

/-- The payload of end-to-end scenario 1 of the specification. -/
def pngRequest : Request :=
  { imageBase64 := .str (js "data:image/png;base64,iVBORw0KGgo="), folder := .str (js "avatars/") }

/-- A payload that declares the type image/jpeg, with the folder left out. -/
def jpegRequest : Request :=
  { imageBase64 := .str (js "data:image/jpeg;base64,/9j/"), folder := .other false }

/-- A payload that declares the type text/html. -/
def htmlRequest : Request :=
  { imageBase64 := .str (js "data:text/html;base64,PGI+"), folder := .other false }

instance instDecidableEqExcept {ε α : Type} [DecidableEq ε] [DecidableEq α] :
    DecidableEq (Except ε α)
  | .ok a, .ok b => if h : a = b then isTrue (by rw [h]) else isFalse (by intro e; cases e; exact h rfl)
  | .error a, .error b =>
    if h : a = b then isTrue (by rw [h]) else isFalse (by intro e; cases e; exact h rfl)
  | .ok _, .error _ => isFalse (by intro e; cases e)
  | .error _, .ok _ => isFalse (by intro e; cases e)

/-! ## The handler: the paths of one run -/

theorem safeExts_mem (e : JsString) :
    e ∈ safeExts ↔ e = js "png" ∨ e = js "jpg" ∨ e = js "jpeg" ∨ e = js "webp" := by
  simp [safeExts]

theorem resolveExt_mem (tbl : JsString → Option JsString) (ct : JsString) :
    resolveExt tbl ct ∈ safeExts := by
  simp only [resolveExt]
  split
  · rename_i h
    simpa using h
  · simp [safeExts]

/-- Every run of the handler follows one of six paths. -/
theorem upload_paths (env : Env) (req : Request) :
    (truthy req.imageBase64 = false ∧
        upload env req = { puts := [], responses := [missingResponse] }) ∨
    (∃ m, truthy req.imageBase64 = true ∧ parseBase64 req.imageBase64 = .error m ∧
        upload env req = { puts := [], responses := [failureResponse m] }) ∨
    (∃ parsed m, truthy req.imageBase64 = true ∧ parseBase64 req.imageBase64 = .ok parsed ∧
        folderPart req.folder = .error m ∧
        upload env req = { puts := [], responses := [failureResponse m] }) ∨
    (∃ parsed fp put, truthy req.imageBase64 = true ∧
        parseBase64 req.imageBase64 = .ok parsed ∧ folderPart req.folder = .ok fp ∧
        put = { key := makeKey fp (randToken env.draw8) (randToken env.draw6)
                  (resolveExt env.mimeExtension (resolveContentType parsed.mimeType)),
                body := parsed.buffer,
                contentType := resolveContentType parsed.mimeType } ∧
        ((∃ m, env.s3Put put = some m ∧
            upload env req = { puts := [put], responses := [failureResponse m] }) ∨
         (∃ m, env.s3Put put = none ∧ resolveUrl env put.key = .error m ∧
            upload env req = { puts := [put], responses := [failureResponse m] }) ∨
         (∃ url, env.s3Put put = none ∧ resolveUrl env put.key = .ok url ∧
            upload env req = { puts := [put], responses :=
              [successResponse put.key url put.contentType parsed.buffer.length] }))) := by
  unfold upload
  cases ht : truthy req.imageBase64
  · left; simp
  · right
    cases hp : parseBase64 req.imageBase64 with
    | error m => left; exact ⟨m, rfl, rfl, by simp⟩
    | ok parsed =>
      right
      cases hf : folderPart req.folder with
      | error m => left; exact ⟨parsed, m, rfl, rfl, rfl, by simp⟩
      | ok fp =>
        right
        refine ⟨parsed, fp, _, rfl, rfl, rfl, rfl, ?_⟩
        simp only []
        cases hs : env.s3Put _ with
        | some m => left; exact ⟨m, rfl, by simp⟩
        | none =>
          right
          cases hu : resolveUrl env _ with
          | error m => left; exact ⟨m, rfl, rfl, by simp⟩
          | ok u => right; exact ⟨u, rfl, rfl, by simp⟩

/-! ## Strings: slashes and segments -/

theorem splitSlash_ne_nil (s : JsString) : splitSlash s ≠ [] := by
  cases s with
  | nil => simp [splitSlash]
  | cons c cs =>
    simp only [splitSlash]
    split
    · simp
    · split <;> simp

theorem splitSlash_append (a b : JsString) :
    splitSlash (a ++ slash :: b) = splitSlash a ++ splitSlash b := by
  induction a with
  | nil => simp [splitSlash]
  | cons c cs ih =>
    simp only [List.cons_append, splitSlash]
    split
    · simp [ih]
    · show (match splitSlash (cs ++ slash :: b) with
        | [] => [[c]]
        | seg :: rest => (c :: seg) :: rest) = _
      rw [ih]
      cases h : splitSlash cs with
      | nil => exact absurd h (splitSlash_ne_nil cs)
      | cons seg rest => simp

theorem splitSlash_of_not_mem (s : JsString) (h : slash ∉ s) : splitSlash s = [s] := by
  induction s with
  | nil => rfl
  | cons c cs ih =>
    simp only [List.mem_cons, not_or] at h
    simp only [splitSlash]
    rw [if_neg (fun e => h.1 e.symm), ih h.2]

theorem noEmptySegment_append (a b : JsString) :
    noEmptySegment (a ++ slash :: b) = (noEmptySegment a && noEmptySegment b) := by
  simp [noEmptySegment, splitSlash_append]

theorem randToken_length (buf : List Nat) : (randToken buf).length = buf.length := by
  simp [randToken]

theorem alphabet_getD_range (i : Nat) (h : i < 36) :
    (65 ≤ alphabet.getD i 0 ∧ alphabet.getD i 0 ≤ 90) ∨
      (48 ≤ alphabet.getD i 0 ∧ alphabet.getD i 0 ≤ 57) := by
  have : ∀ i : Fin 36, (65 ≤ alphabet.getD i.val 0 ∧ alphabet.getD i.val 0 ≤ 90) ∨
      (48 ≤ alphabet.getD i.val 0 ∧ alphabet.getD i.val 0 ≤ 57) := by decide
  exact this ⟨i, h⟩

theorem alphabet_length : alphabet.length = 36 := by decide

theorem randToken_chars (buf : List Nat) (c : Nat) (h : c ∈ randToken buf) :
    (65 ≤ c ∧ c ≤ 90) ∨ (48 ≤ c ∧ c ≤ 57) := by
  simp only [randToken, List.mem_map] at h
  obtain ⟨b, _, rfl⟩ := h
  rw [alphabet_length]
  exact alphabet_getD_range _ (Nat.mod_lt _ (by decide))

/-! ## The storage key -/

theorem slash_not_mem_randToken (buf : List Nat) : slash ∉ randToken buf := by
  intro h
  have := randToken_chars buf slash h
  simp [slash] at this

theorem slash_not_mem_of_safeExts (e : JsString) (h : e ∈ safeExts) : slash ∉ e := by
  rw [safeExts_mem] at h
  rcases h with rfl | rfl | rfl | rfl <;> decide

/-- The file name part of a key has no slash. -/
theorem slash_not_mem_fileName (d8 d6 : List Nat) (e : JsString) (h : e ∈ safeExts) :
    slash ∉ randToken d8 ++ js "-" ++ randToken d6 ++ js "." ++ e := by
  have h1 := slash_not_mem_randToken d8
  have h2 := slash_not_mem_randToken d6
  have h3 := slash_not_mem_of_safeExts e h
  have h4 : slash ∉ js "-" := by decide
  have h5 : slash ∉ js "." := by decide
  simp only [List.mem_append, not_or]
  exact ⟨⟨⟨⟨h1, h4⟩, h2⟩, h5⟩, h3⟩

theorem makeKey_eq (fp t1 t2 e : JsString) :
    makeKey fp t1 t2 e = fp ++ (t1 ++ js "-" ++ t2 ++ js "." ++ e) := by
  simp [makeKey, List.append_assoc]

theorem folderPart_str (f : JsString) :
    folderPart (.str f) = .ok (if f = [] then [] else stripTrailingSlashes f ++ [slash]) := by
  cases f <;> simp [folderPart]

/-- For a string folder and a payload that parses, the handler sends exactly one write. -/
theorem upload_put_of_parsed (env : Env) (req : Request) (f : JsString) (parsed : Parsed)
    (hf : req.folder = .str f) (ht : truthy req.imageBase64 = true)
    (hp : parseBase64 req.imageBase64 = .ok parsed) :
    (upload env req).puts =
      [{ key := makeKey (if f = [] then [] else stripTrailingSlashes f ++ [slash])
                  (randToken env.draw8) (randToken env.draw6)
                  (resolveExt env.mimeExtension (resolveContentType parsed.mimeType)),
         body := parsed.buffer,
         contentType := resolveContentType parsed.mimeType }] := by
  rcases upload_paths env req with h | ⟨m, _, h, _⟩ | ⟨p, m, _, _, h, _⟩ | ⟨p, fp, put, _, h1, h2, h3, h⟩
  · rw [ht] at h; exact absurd h.1 (by simp)
  · rw [hp] at h; cases h
  · rw [hf, folderPart_str] at h; cases h
  · rw [hp] at h1
    cases h1
    rw [hf, folderPart_str] at h2
    cases h2
    rcases h with ⟨m, _, h⟩ | ⟨m, _, _, h⟩ | ⟨u, _, _, h⟩ <;> rw [h, h3]

/-- C5, key shape.  For every string folder, every draw of 8 and of 6 random bytes and
every payload that parses, the handler writes one object whose key is
token1 - token2 . ext when the folder is empty and the folder without its trailing
slashes, a slash, and the same file name otherwise; token1 has 8 and token2 has 6
characters, each one alphabet[byte mod 36] and so a capital letter or a digit, and
ext is one of png, jpg, jpeg, webp. -/
theorem key_shape (env : Env) (req : Request) (f : JsString) (parsed : Parsed)
    (hf : req.folder = .str f) (ht : truthy req.imageBase64 = true)
    (hp : parseBase64 req.imageBase64 = .ok parsed)
    (h8 : env.draw8.length = 8) (h6 : env.draw6.length = 6) :
    ∃ put token1 token2 ext,
      (upload env req).puts = [put] ∧
      token1 = randToken env.draw8 ∧ token2 = randToken env.draw6 ∧
      put.key = (if f = [] then token1 ++ js "-" ++ token2 ++ js "." ++ ext
                 else stripTrailingSlashes f ++ js "/" ++ token1 ++ js "-" ++ token2
                        ++ js "." ++ ext) ∧
      token1.length = 8 ∧ token2.length = 6 ∧
      token1 = env.draw8.map (fun b => alphabet.getD (b % 36) 0) ∧
      token2 = env.draw6.map (fun b => alphabet.getD (b % 36) 0) ∧
      (∀ c ∈ token1 ++ token2, (65 ≤ c ∧ c ≤ 90) ∨ (48 ≤ c ∧ c ≤ 57)) ∧
      ext ∈ safeExts := by
  refine ⟨_, randToken env.draw8, randToken env.draw6,
    resolveExt env.mimeExtension (resolveContentType parsed.mimeType),
    upload_put_of_parsed env req f parsed hf ht hp, rfl, rfl, ?_, ?_, ?_, ?_, ?_, ?_, ?_⟩
  · by_cases hfe : f = []
    · simp [hfe, makeKey]
    · simp only [hfe, if_false, makeKey]
      have : js "/" = [slash] := by decide
      rw [this]
  · rw [randToken_length, h8]
  · rw [randToken_length, h6]
  · simp [randToken, alphabet_length]
  · simp [randToken, alphabet_length]
  · intro c hc
    rcases List.mem_append.mp hc with h | h
    · exact randToken_chars _ c h
    · exact randToken_chars _ c h
  · exact resolveExt_mem _ _

/-- Witness of key_shape: scenario 1 of the specification with the folder avatars/. -/
theorem key_shape_witness :
    ∃ put token1 token2 ext,
      (upload sampleEnv pngRequest).puts = [put] ∧
      token1 = randToken sampleEnv.draw8 ∧ token2 = randToken sampleEnv.draw6 ∧
      put.key = (if js "avatars/" = [] then token1 ++ js "-" ++ token2 ++ js "." ++ ext
                 else stripTrailingSlashes (js "avatars/") ++ js "/" ++ token1 ++ js "-" ++ token2
                        ++ js "." ++ ext) ∧
      token1.length = 8 ∧ token2.length = 6 ∧
      token1 = sampleEnv.draw8.map (fun b => alphabet.getD (b % 36) 0) ∧
      token2 = sampleEnv.draw6.map (fun b => alphabet.getD (b % 36) 0) ∧
      (∀ c ∈ token1 ++ token2, (65 ≤ c ∧ c ≤ 90) ∨ (48 ≤ c ∧ c ≤ 57)) ∧
      ext ∈ safeExts :=
  key_shape sampleEnv pngRequest (js "avatars/")
    { buffer := [137, 80, 78, 71, 13, 10, 26, 10], mimeType := js "image/png" }
    rfl (by decide) (by decide) (by decide) (by decide)

/-- C9, counterexample.  With the folder "/" the handler stores the object under the
key /ABCDEFGH-456789.png, which starts with a slash: its first segment is empty. -/
theorem key_path_safety_counterexample :
    (upload sampleEnv { pngRequest with folder := .str (js "/") }).puts.map (fun p => p.key)
        = [js "/ABCDEFGH-456789.png"] ∧
      noEmptySegment (js "/ABCDEFGH-456789.png") = false := by
  decide

/-- C9, amended.  For every string folder, the key that the handler builds has no
empty segment exactly when the folder is empty or the folder without its trailing
slashes has no empty segment itself (it is not empty, does not start with a slash and
has no two slashes in a row); the file name that the handler appends is never empty
and has no slash. -/
theorem key_path_safety (env : Env) (req : Request) (f : JsString) (parsed : Parsed)
    (hf : req.folder = .str f) (ht : truthy req.imageBase64 = true)
    (hp : parseBase64 req.imageBase64 = .ok parsed) :
    ∃ put, (upload env req).puts = [put] ∧
      (noEmptySegment put.key = true ↔
        (f = [] ∨ noEmptySegment (stripTrailingSlashes f) = true)) := by
  refine ⟨_, upload_put_of_parsed env req f parsed hf ht hp, ?_⟩
  have hmem := resolveExt_mem env.mimeExtension (resolveContentType parsed.mimeType)
  have hns := slash_not_mem_fileName env.draw8 env.draw6 _ hmem
  have hfile : noEmptySegment (randToken env.draw8 ++ js "-" ++ randToken env.draw6 ++ js "."
      ++ resolveExt env.mimeExtension (resolveContentType parsed.mimeType)) = true := by
    simp only [noEmptySegment, splitSlash_of_not_mem _ hns]
    simp [js]
  simp only [makeKey_eq]
  generalize randToken env.draw8 ++ js "-" ++ randToken env.draw6 ++ js "."
      ++ resolveExt env.mimeExtension (resolveContentType parsed.mimeType) = fileName at hfile ⊢
  by_cases hfe : f = []
  · simp [hfe, hfile]
  · simp only [hfe, if_false, false_or, List.append_assoc, List.singleton_append]
    rw [noEmptySegment_append, hfile, Bool.and_true]

/-- Witness of key_path_safety: the folder avatars/ gives a key without empty segment. -/
theorem key_path_safety_witness :
    ∃ put, (upload sampleEnv pngRequest).puts = [put] ∧
      (noEmptySegment put.key = true ↔
        (js "avatars/" = [] ∨ noEmptySegment (stripTrailingSlashes (js "avatars/")) = true)) :=
  key_path_safety sampleEnv pngRequest (js "avatars/")
    { buffer := [137, 80, 78, 71, 13, 10, 26, 10], mimeType := js "image/png" }
    rfl (by decide) (by decide)

/-! ## Content type and extension -/

theorem resolveExt_of_none (tbl : JsString → Option JsString) (ct : JsString)
    (h : tbl ct = none) : resolveExt tbl ct = js "png" := by
  simp only [resolveExt, h]
  decide

theorem resolveExt_of_unsafe (tbl : JsString → Option JsString) (ct e : JsString)
    (h : tbl ct = some e) (he : e ∉ safeExts) : resolveExt tbl ct = js "png" := by
  simp only [resolveExt, h]
  by_cases hemp : e.isEmpty = true
  · simp only [hemp, if_true]
    decide
  · simp only [hemp]
    simp [he]

theorem resolveExt_of_safe (tbl : JsString → Option JsString) (ct e : JsString)
    (h : tbl ct = some e) (he : e ∈ safeExts) : resolveExt tbl ct = e := by
  have hne : e.isEmpty = false := by
    rw [safeExts_mem] at he
    rcases he with rfl | rfl | rfl | rfl <;> decide
  simp [resolveExt, h, hne, he]

/-- C4, counterexample.  With the table of mime-types 3.x, which lists jpg first for
image/jpeg, the extension of a payload that declares image/jpeg is jpg and not jpeg:
the handler stores it under the key ABCDEFGH-456789.jpg.  The type is looked up
without regard to case. -/
theorem extension_clamp_counterexample :
    resolveExt mimeExtensionV3 (resolveContentType (js "image/jpeg")) = js "jpg" ∧
    resolveExt mimeExtensionV3 (resolveContentType (js "image/jpeg")) ≠ js "jpeg" ∧
    (upload sampleEnv jpegRequest).puts =
      [{ key := js "ABCDEFGH-456789.jpg", body := [255, 216, 255],
         contentType := js "image/jpeg" }] ∧
    resolveExt mimeExtensionV3 (resolveContentType (js "IMAGE/JPEG")) = js "jpg" := by
  decide

/-- C4, amended.  For every type to extension mapping and every declared type (the
empty one resolves to application/octet-stream), the extension is one of png, jpg,
jpeg, webp; it is png when the mapping gives no extension or one outside that set, and
otherwise it is exactly the extension that the mapping gives; it is the suffix of the
key that the handler writes.  Which extension image/jpeg, image/png and image/webp get
is therefore decided by the mapping alone. -/
theorem extension_clamp (tbl : JsString → Option JsString) (declared : JsString) :
    resolveExt tbl (resolveContentType declared) ∈ safeExts ∧
    resolveContentType [] = js "application/octet-stream" ∧
    (tbl (resolveContentType declared) = none →
      resolveExt tbl (resolveContentType declared) = js "png") ∧
    (∀ e, tbl (resolveContentType declared) = some e → e ∉ safeExts →
      resolveExt tbl (resolveContentType declared) = js "png") ∧
    (∀ e, tbl (resolveContentType declared) = some e → e ∈ safeExts →
      resolveExt tbl (resolveContentType declared) = e) ∧
    (∀ (env : Env) (req : Request) (put : PutObject), env.mimeExtension = tbl →
      put ∈ (upload env req).puts →
      ∃ stem parsed, parseBase64 req.imageBase64 = .ok parsed ∧
        put.key = stem ++ js "." ++ resolveExt tbl (resolveContentType parsed.mimeType)) := by
  refine ⟨resolveExt_mem _ _, by decide, resolveExt_of_none _ _,
    fun e h he => resolveExt_of_unsafe _ _ e h he,
    fun e h he => resolveExt_of_safe _ _ e h he, ?_⟩
  intro env req put htbl hput
  rcases upload_paths env req with h | ⟨m, _, _, h⟩ | ⟨p, m, _, _, _, h⟩ |
      ⟨p, fp, put0, _, h1, _, h3, h⟩
  · rw [h.2] at hput; simp at hput
  · rw [h] at hput; simp at hput
  · rw [h] at hput; simp at hput
  · have hp : put = put0 := by
      rcases h with ⟨m, _, h⟩ | ⟨m, _, _, h⟩ | ⟨u, _, _, h⟩ <;>
        (rw [h] at hput; simpa using hput)
    refine ⟨fp ++ randToken env.draw8 ++ js "-" ++ randToken env.draw6, p, h1, ?_⟩
    rw [hp, h3, htbl]
    simp [makeKey]

/-- Witness of extension_clamp over the table of mime-types 3.x: text/html, whose
extension html is outside the allow-list, gives png; a type unknown to the table gives
png; image/png and image/webp keep the extensions of the table; and the key written
for scenario 1 ends in the resolved extension. -/
theorem extension_clamp_witness :
    resolveExt mimeExtensionV3 (resolveContentType (js "text/html")) = js "png" ∧
    resolveExt mimeExtensionV3 (resolveContentType (js "image/x-unknown")) = js "png" ∧
    resolveExt mimeExtensionV3 (resolveContentType (js "image/png")) = js "png" ∧
    resolveExt mimeExtensionV3 (resolveContentType (js "image/webp")) = js "webp" ∧
    (∃ stem parsed, parseBase64 pngRequest.imageBase64 = .ok parsed ∧
      js "avatars/ABCDEFGH-456789.png"
        = stem ++ js "." ++ resolveExt mimeExtensionV3 (resolveContentType parsed.mimeType)) :=
  ⟨(extension_clamp mimeExtensionV3 (js "text/html")).2.2.2.1 (js "html")
      (by decide) (by decide),
   (extension_clamp mimeExtensionV3 (js "image/x-unknown")).2.2.1 (by decide),
   (extension_clamp mimeExtensionV3 (js "image/png")).2.2.2.2.1 (js "png")
      (by decide) (by decide),
   (extension_clamp mimeExtensionV3 (js "image/webp")).2.2.2.2.1 (js "webp")
      (by decide) (by decide),
   (extension_clamp mimeExtensionV3 (js "text/html")).2.2.2.2.2 sampleEnv pngRequest
     { key := js "avatars/ABCDEFGH-456789.png", body := [137, 80, 78, 71, 13, 10, 26, 10],
       contentType := js "image/png" } rfl (by decide)⟩

/-! ## parseBase64: the two ways through the function -/

theorem dropLiteral_eq_some (l s r : JsString) (h : dropLiteral l s = some r) : s = l ++ r := by
  induction l generalizing s with
  | nil => simp [dropLiteral] at h; simp [h]
  | cons a l ih =>
    cases s with
    | nil => simp [dropLiteral] at h
    | cons c cs =>
      simp only [dropLiteral] at h
      split at h
      · rename_i hac
        rw [hac, ih cs h]
        rfl
      · simp at h

theorem dropLiteral_append (l r : JsString) : dropLiteral l (l ++ r) = some r := by
  induction l with
  | nil => simp [dropLiteral]
  | cons a l ih => simp [dropLiteral, ih]

theorem matchDataUri_eq_dataUriHead (s m p : JsString) (h : matchDataUri s = some (m, p)) :
    dataUriHead s = some (m, p) ∧ p ≠ [] ∧ ∀ c ∈ p, isLineTerminator c = false := by
  unfold matchDataUri at h
  unfold dataUriHead
  cases h1 : dropLiteral (js "data:") s with
  | none => simp [h1] at h
  | some r =>
    simp only [h1] at h ⊢
    by_cases hm : List.takeWhile isMediaTypeChar r = []
    · simp [hm] at h
    · simp only [hm, if_false] at h ⊢
      cases h2 : dropLiteral (js ";base64,") (List.dropWhile isMediaTypeChar r) with
      | none => simp [h2] at h
      | some q =>
        simp only [h2] at h ⊢
        split at h
        · rename_i hq
          simp only [Option.some.injEq, Prod.mk.injEq] at h
          obtain ⟨h3, h4⟩ := h
          subst h4
          refine ⟨by rw [h3], hq.1, ?_⟩
          intro c hc
          have := List.all_eq_true.mp hq.2 c hc
          simpa using this
        · simp at h

theorem matchDataUri_none_of_dataUriHead (s m p : JsString) (h : matchDataUri s = none)
    (hh : dataUriHead s = some (m, p)) : p = [] ∨ ∃ c ∈ p, isLineTerminator c = true := by
  unfold matchDataUri at h
  unfold dataUriHead at hh
  cases h1 : dropLiteral (js "data:") s with
  | none => simp [h1] at hh
  | some r =>
    simp only [h1] at h hh
    by_cases hm : List.takeWhile isMediaTypeChar r = []
    · simp [hm] at hh
    · simp only [hm, if_false] at h hh
      cases h2 : dropLiteral (js ";base64,") (List.dropWhile isMediaTypeChar r) with
      | none => simp [h2] at hh
      | some q =>
        simp only [h2, Option.some.injEq, Prod.mk.injEq] at h hh
        obtain ⟨_, rfl⟩ := hh
        by_cases hq : q = []
        · exact Or.inl hq
        · right
          simp only [hq, not_false_eq_true, true_and, ne_eq] at h
          split at h
          · simp at h
          · rename_i hall
            simpa using hall

theorem colon_mem_of_dataUriHead (s m p : JsString) (h : dataUriHead s = some (m, p)) :
    58 ∈ s := by
  unfold dataUriHead at h
  cases h1 : dropLiteral (js "data:") s with
  | none => simp [h1] at h
  | some r =>
    rw [dropLiteral_eq_some _ _ _ h1]
    simp [js]

theorem matchDataUri_none_of_no_colon (s : JsString) (h : 58 ∉ s) : matchDataUri s = none := by
  unfold matchDataUri
  cases h1 : dropLiteral (js "data:") s with
  | none => rfl
  | some r =>
    exfalso
    apply h
    rw [dropLiteral_eq_some _ _ _ h1]
    simp [js]

theorem parseBase64_of_match (s m p : JsString) (h : matchDataUri s = some (m, p)) :
    parseBase64 (.str s) =
      if isValidBase64 (stripWhitespace p) then
        .ok { buffer := bufferFromBase64 (stripWhitespace p), mimeType := m }
      else .error (js "Invalid base64 data") := by
  cases s with
  | nil => simp [matchDataUri, dropLiteral, js] at h
  | cons c cs => simp only [parseBase64, h]

theorem parseBase64_of_no_match (s : JsString) (hs : s ≠ []) (h : matchDataUri s = none) :
    parseBase64 (.str s) =
      if isValidBase64 (stripWhitespace s) then
        .ok { buffer := bufferFromBase64 (stripWhitespace s), mimeType := [] }
      else .error (js "Invalid base64 data") := by
  cases s with
  | nil => exact absurd rfl hs
  | cons c cs => simp only [parseBase64, h]

/-! ## The validation expression -/

theorem allPadding_iff (t : JsString) : allPadding t = true ↔ ∀ c ∈ t, c = padChar := by
  induction t with
  | nil => simp [allPadding]
  | cons c cs ih => simp [allPadding, ih]

theorem base64Tail_chars (t : JsString) (h : base64Tail t = true) :
    ∀ c ∈ t, isBase64Char c = true ∨ c = padChar := by
  induction t with
  | nil => simp
  | cons c cs ih =>
    simp only [base64Tail] at h
    intro d hd
    rcases List.mem_cons.mp hd with rfl | hd
    · split at h
      · left; assumption
      · right; simp at h; exact h.1
    · split at h
      · exact ih h d hd
      · right
        simp only [Bool.and_eq_true] at h
        exact (allPadding_iff cs).mp h.2 d hd

theorem isValidBase64_chars (t : JsString) (h : isValidBase64 t = true) :
    ∀ c ∈ t, isBase64Char c = true ∨ c = padChar := by
  cases t with
  | nil => simp
  | cons c cs =>
    simp only [isValidBase64, Bool.and_eq_true] at h
    intro d hd
    rcases List.mem_cons.mp hd with rfl | hd
    · exact Or.inl h.1
    · exact base64Tail_chars cs h.2 d hd

theorem isBase64Char_not_pad (c : Nat) (h : isBase64Char c = true) : c ≠ padChar := by
  intro e
  subst e
  revert h
  decide

theorem base64Tail_not_malformed (t : JsString) (h : base64Tail t = true) :
    malformedText t = false := by
  induction t with
  | nil => rfl
  | cons c cs ih =>
    simp only [base64Tail] at h
    split at h
    · rename_i hc
      have ih' := ih h
      have hne := isBase64Char_not_pad c hc
      simp only [malformedText, Bool.or_eq_false_iff, Bool.not_eq_false'] at ih' ⊢
      simp only [List.any_cons, hc, Bool.not_true, Bool.false_and, Bool.false_or]
      refine ⟨ih'.1, ?_⟩
      rw [List.dropWhile_cons_of_pos (by simpa using hne)]
      exact ih'.2
    · rename_i hc
      simp only [Bool.and_eq_true, beq_iff_eq] at h
      obtain ⟨hpad, hall⟩ := h
      have hall' := (allPadding_iff cs).mp hall
      simp only [malformedText, Bool.or_eq_false_iff, Bool.not_eq_false']
      constructor
      · simp only [List.any_eq_false]
        intro d hd
        rcases List.mem_cons.mp hd with rfl | hd
        · simp [hpad]
        · simp [hall' d hd]
      · rw [List.dropWhile_cons_of_neg (by simp [hpad])]
        simp [allPadding, hpad, hall]

theorem isValidBase64_not_malformed (t : JsString) (h : isValidBase64 t = true) :
    malformedText t = false := by
  cases t with
  | nil => simp [isValidBase64] at h
  | cons c cs =>
    simp only [isValidBase64, Bool.and_eq_true] at h
    apply base64Tail_not_malformed
    simp [base64Tail, h.1, h.2]

theorem colon_not_mem_of_valid (t : JsString) (h : isValidBase64 t = true) : 58 ∉ t := by
  intro hm
  rcases isValidBase64_chars t h 58 hm with h1 | h1
  · revert h1; decide
  · revert h1; decide

theorem colon_mem_stripWhitespace (s : JsString) (h : 58 ∈ s) : 58 ∈ stripWhitespace s := by
  simp only [stripWhitespace, List.mem_filter]
  exact ⟨h, by decide⟩

theorem stripWhitespace_eq_self (t : JsString) (h : ∀ c ∈ t, isWhitespace c = false) :
    stripWhitespace t = t := by
  simp only [stripWhitespace, List.filter_eq_self]
  intro c hc
  simp [h c hc]

theorem isBase64Char_not_whitespace (c : Nat) (h : isBase64Char c = true) :
    isWhitespace c = false := by
  simp only [isBase64Char, isWhitespace, Bool.or_eq_true, Bool.and_eq_true,
    decide_eq_true_eq, beq_iff_eq] at h
  simp only [isWhitespace, Bool.or_eq_false_iff, Bool.and_eq_false_iff, decide_eq_false_iff_not,
    beq_eq_false_iff_ne]
  omega

theorem isBase64Char_not_lineTerminator (c : Nat) (h : isBase64Char c = true) :
    isLineTerminator c = false := by
  simp only [isBase64Char, Bool.or_eq_true, Bool.and_eq_true,
    decide_eq_true_eq, beq_iff_eq] at h
  simp only [isLineTerminator, Bool.or_eq_false_iff, beq_eq_false_iff_ne]
  omega

/-! ## Rejection of malformed payloads -/

/-- An input whose encoded text is not accepted by the validation expression makes
parseBase64 throw. -/
theorem parseBase64_error_of_invalid (s : JsString)
    (h : isValidBase64 (encodedText s) = false) : ∃ msg, parseBase64 (.str s) = .error msg := by
  by_cases hs : s = []
  · subst hs
    exact ⟨_, rfl⟩
  · cases hm : matchDataUri s with
    | some mp =>
      obtain ⟨m, p⟩ := mp
      have hh := (matchDataUri_eq_dataUriHead s m p hm).1
      simp only [encodedText, hh] at h
      rw [parseBase64_of_match s m p hm, h]
      exact ⟨_, rfl⟩
    | none =>
      rw [parseBase64_of_no_match s hs hm]
      cases hh : dataUriHead s with
      | none =>
        simp only [encodedText, hh] at h
        rw [h]
        exact ⟨_, rfl⟩
      | some mp =>
        obtain ⟨m, p⟩ := mp
        have hcolon := colon_mem_stripWhitespace s (colon_mem_of_dataUriHead s m p hh)
        have hinv : isValidBase64 (stripWhitespace s) = false := by
          cases hv : isValidBase64 (stripWhitespace s) with
          | false => rfl
          | true => exact absurd hcolon (colon_not_mem_of_valid _ hv)
        rw [hinv]
        exact ⟨_, rfl⟩

/-- C2.  For every input string whose encoded text (what remains after removing a
head data:<media-type>;base64, and all whitespace) has a character outside A-Z, a-z,
0-9, +, /, = or has = anywhere except as trailing padding, parseBase64 throws, and
the handler given that input as imageBase64 answers 400 once and never sends a write
to the store. -/
theorem malformed_payload_rejected (env : Env) (req : Request) (s : JsString)
    (hreq : req.imageBase64 = .str s) (hbad : malformedText (encodedText s) = true) :
    (∃ msg, parseBase64 (.str s) = .error msg) ∧
    (upload env req).puts = [] ∧
    ∃ r, (upload env req).responses = [r] ∧ r.status = 400 ∧
      r.field "ok" = some (.bool false) := by
  have hinv : isValidBase64 (encodedText s) = false := by
    cases hv : isValidBase64 (encodedText s) with
    | false => rfl
    | true =>
      rw [isValidBase64_not_malformed _ hv] at hbad
      cases hbad
  obtain ⟨msg, hmsg⟩ := parseBase64_error_of_invalid s hinv
  refine ⟨⟨msg, hmsg⟩, ?_⟩
  rcases upload_paths env req with h | ⟨m, _, _, h⟩ | ⟨p, m, _, hp, _, _⟩ |
      ⟨p, fp, put0, _, hp, _, _, _⟩
  · rw [h.2]
    exact ⟨rfl, _, rfl, rfl, rfl⟩
  · rw [h]
    exact ⟨rfl, _, rfl, rfl, rfl⟩
  · rw [hreq, hmsg] at hp
    cases hp
  · rw [hreq, hmsg] at hp
    cases hp

/-- Witness of malformed_payload_rejected: scenario 3 of the specification. -/
theorem malformed_payload_rejected_witness :
    (∃ msg, parseBase64 (.str (js "not-base64-@@@")) = .error msg) ∧
    (upload sampleEnv { imageBase64 := .str (js "not-base64-@@@"), folder := .other false }).puts
      = [] ∧
    ∃ r, (upload sampleEnv
        { imageBase64 := .str (js "not-base64-@@@"), folder := .other false }).responses = [r] ∧
      r.status = 400 ∧ r.field "ok" = some (.bool false) :=
  malformed_payload_rejected sampleEnv
    { imageBase64 := .str (js "not-base64-@@@"), folder := .other false }
    (js "not-base64-@@@") rfl (by decide)

/-! ## Responses -/

theorem failureResponse_shape (m : JsString) :
    (failureResponse m).status = 400 ∧ (failureResponse m).field "ok" = some (.bool false) ∧
    (failureResponse m).field "error"
      = some (.str (if m = [] then js "Upload failed" else m)) ∧
    (failureResponse m).field "key" = none ∧ (failureResponse m).field "url" = none := by
  refine ⟨rfl, rfl, ?_, rfl, rfl⟩
  cases m <;> rfl

theorem missingResponse_shape :
    missingResponse.status = 400 ∧ missingResponse.field "ok" = some (.bool false) ∧
    missingResponse.field "error" = some (.str (js "Missing 'imageBase64'")) ∧
    missingResponse.field "key" = none ∧ missingResponse.field "url" = none := by
  decide

theorem successResponse_shape (key url contentType : JsString) (size : Nat) :
    (successResponse key url contentType size).status = 200 ∧
    (successResponse key url contentType size).field "ok" = some (.bool true) ∧
    (successResponse key url contentType size).field "key" = some (.str key) ∧
    (successResponse key url contentType size).field "url" = some (.str url) ∧
    (successResponse key url contentType size).field "contentType" = some (.str contentType) ∧
    (successResponse key url contentType size).field "size" = some (.num size) :=
  ⟨rfl, rfl, rfl, rfl, rfl, rfl⟩

/-! ## No partial success -/

/-- C6, counterexample.  When the store rejects the write with an error whose message
is the empty string, the response does not carry that message: the handler answers
with the generic text Upload failed. -/
theorem storage_failure_message_counterexample :
    silentFailureEnv.s3Put
        { key := js "avatars/ABCDEFGH-456789.png", body := [137, 80, 78, 71, 13, 10, 26, 10],
          contentType := js "image/png" } = some [] ∧
    (upload silentFailureEnv pngRequest).puts =
      [{ key := js "avatars/ABCDEFGH-456789.png", body := [137, 80, 78, 71, 13, 10, 26, 10],
         contentType := js "image/png" }] ∧
    (upload silentFailureEnv pngRequest).responses =
      [{ status := 400, body := [("ok", .bool false), ("error", .str (js "Upload failed"))] }] ∧
    js "Upload failed" ≠ [] := by
  decide

/-- C6, amended.  For every request and every outcome of the storage write and of URL
resolution, the handler sends exactly one response; it is either status 200 with
ok true and key, url, contentType and size (and then the write was sent and the store
accepted it), or status 400 with ok false, an error string and neither key nor url.
When the storage write fails the response is 400 and carries the message of the
backend error, or the text Upload failed when that message is empty. -/
theorem no_partial_success (env : Env) (req : Request) :
    ∃ r, (upload env req).responses = [r] ∧
      ((r.status = 200 ∧ r.field "ok" = some (.bool true) ∧
          ∃ put url, (upload env req).puts = [put] ∧ env.s3Put put = none ∧
            r.field "key" = some (.str put.key) ∧ r.field "url" = some (.str url) ∧
            r.field "contentType" = some (.str put.contentType) ∧
            r.field "size" = some (.num put.body.length)) ∨
       (r.status = 400 ∧ r.field "ok" = some (.bool false) ∧
          (∃ e, r.field "error" = some (.str e)) ∧
          r.field "key" = none ∧ r.field "url" = none)) ∧
      (∀ put msg, put ∈ (upload env req).puts → env.s3Put put = some msg →
        r.status = 400 ∧
        r.field "error" = some (.str (if msg = [] then js "Upload failed" else msg))) := by
  have hfail : ∀ m, (failureResponse m).status = 400 ∧
      (failureResponse m).field "ok" = some (.bool false) ∧
      (∃ e, (failureResponse m).field "error" = some (.str e)) ∧
      (failureResponse m).field "key" = none ∧ (failureResponse m).field "url" = none :=
    fun m => ⟨rfl, rfl, ⟨_, (failureResponse_shape m).2.2.1⟩, rfl, rfl⟩
  rcases upload_paths env req with h | ⟨m, _, _, h⟩ | ⟨p, m, _, _, _, h⟩ |
      ⟨p, fp, put0, _, _, _, h3, h⟩
  · rw [h.2]
    exact ⟨_, rfl, Or.inr ⟨rfl, rfl, ⟨_, rfl⟩, rfl, rfl⟩, fun put msg hput => by simp at hput⟩
  · rw [h]
    exact ⟨_, rfl, Or.inr (hfail m), fun put msg hput => by simp at hput⟩
  · rw [h]
    exact ⟨_, rfl, Or.inr (hfail m), fun put msg hput => by simp at hput⟩
  · rcases h with ⟨m, hs, h⟩ | ⟨m, hs, _, h⟩ | ⟨u, hs, _, h⟩
    · rw [h]
      refine ⟨_, rfl, Or.inr (hfail m), ?_⟩
      intro put msg hput hmsg
      simp only [List.mem_singleton] at hput
      subst hput
      rw [hs] at hmsg
      cases hmsg
      exact ⟨rfl, (failureResponse_shape m).2.2.1⟩
    · rw [h]
      refine ⟨_, rfl, Or.inr (hfail m), ?_⟩
      intro put msg hput hmsg
      simp only [List.mem_singleton] at hput
      subst hput
      rw [hs] at hmsg
      cases hmsg
    · rw [h]
      refine ⟨_, rfl, Or.inl ⟨rfl, rfl, put0, u, rfl, hs, rfl, rfl, rfl, ?_⟩, ?_⟩
      · rw [h3]
        rfl
      · intro put msg hput hmsg
        simp only [List.mem_singleton] at hput
        subst hput
        rw [hs] at hmsg
        cases hmsg

/-- Witness of no_partial_success: scenario 4 of the specification, a store that
rejects the write with the message Access Denied. -/
theorem no_partial_success_witness :
    ∃ r, (upload failureEnv pngRequest).responses = [r] ∧ r.status = 400 ∧
      r.field "error" = some (.str (js "Access Denied")) ∧
      r.field "key" = none ∧ r.field "url" = none := by
  obtain ⟨r, hr, hshape, hmsg⟩ := no_partial_success failureEnv pngRequest
  have h := hmsg
    { key := js "avatars/ABCDEFGH-456789.png", body := [137, 80, 78, 71, 13, 10, 26, 10],
      contentType := js "image/png" } (js "Access Denied") (by decide) (by decide)
  refine ⟨r, hr, h.1, h.2, ?_⟩
  rcases hshape with h200 | h400
  · rw [h.1] at h200
    exact absurd h200.1 (by decide)
  · exact ⟨h400.2.2.2.1, h400.2.2.2.2⟩

/-! ## Content type -/

theorem dataUriHead_mediaType_ne (s m p : JsString) (h : dataUriHead s = some (m, p)) :
    m ≠ [] := by
  unfold dataUriHead at h
  cases h1 : dropLiteral (js "data:") s with
  | none => simp [h1] at h
  | some r =>
    simp only [h1] at h
    by_cases hm : List.takeWhile isMediaTypeChar r = []
    · simp [hm] at h
    · simp only [hm, if_false] at h
      cases h2 : dropLiteral (js ";base64,") (List.dropWhile isMediaTypeChar r) with
      | none => simp [h2] at h
      | some q =>
        simp only [h2, Option.some.injEq, Prod.mk.injEq] at h
        rw [← h.1]
        exact hm

theorem resolveContentType_of_ne (m : JsString) (h : m ≠ []) : resolveContentType m = m := by
  cases m with
  | nil => exact absurd rfl h
  | cons c cs => rfl

/-- The content type that the handler derives from a payload that parses. -/
theorem parseBase64_contentType (v : JsValue) (parsed : Parsed)
    (h : parseBase64 v = .ok parsed) :
    ∃ s, v = .str s ∧
      resolveContentType parsed.mimeType =
        (match dataUriHead s with
         | some (m, _) => m
         | none => js "application/octet-stream") := by
  cases v with
  | other t => cases h
  | str s =>
    refine ⟨s, rfl, ?_⟩
    by_cases hs : s = []
    · subst hs; cases h
    · cases hm : matchDataUri s with
      | some mp =>
        obtain ⟨m, p⟩ := mp
        have hh := (matchDataUri_eq_dataUriHead s m p hm).1
        rw [parseBase64_of_match s m p hm] at h
        split at h
        · cases h
          simp only [hh]
          exact resolveContentType_of_ne m (dataUriHead_mediaType_ne s m p hh)
        · cases h
      | none =>
        rw [parseBase64_of_no_match s hs hm] at h
        split at h
        · rename_i hv
          cases h
          have hc : (58 : Nat) ∉ s := fun hmem =>
            colon_not_mem_of_valid _ hv (colon_mem_stripWhitespace s hmem)
          cases hh : dataUriHead s with
          | none => rfl
          | some mp => exact absurd (colon_mem_of_dataUriHead s mp.1 mp.2 hh) hc
        · cases h

/-- C7, content type passed through unclamped.  For every successful upload (a
response with status 200), exactly one write was sent and accepted, the ContentType of
that write and the contentType of the response are the same value, and that value is
the media type of the head data:<media-type>;base64, of the payload when there is one
and application/octet-stream otherwise; the clamp only chooses the suffix of the key. -/
theorem content_type_passthrough (env : Env) (req : Request) (r : Response)
    (hr : r ∈ (upload env req).responses) (hok : r.status = 200) :
    ∃ s put, req.imageBase64 = .str s ∧ (upload env req).puts = [put] ∧
      env.s3Put put = none ∧
      r.field "contentType" = some (.str put.contentType) ∧
      put.contentType =
        (match dataUriHead s with
         | some (m, _) => m
         | none => js "application/octet-stream") ∧
      ∃ stem, put.key = stem ++ js "." ++ resolveExt env.mimeExtension put.contentType := by
  rcases upload_paths env req with h | ⟨m, _, _, h⟩ | ⟨p, m, _, _, _, h⟩ |
      ⟨p, fp, put0, _, hp, _, h3, h⟩
  · rw [h.2] at hr
    simp only [List.mem_singleton] at hr
    subst hr
    cases hok
  · rw [h] at hr
    simp only [List.mem_singleton] at hr
    subst hr
    cases hok
  · rw [h] at hr
    simp only [List.mem_singleton] at hr
    subst hr
    cases hok
  · rcases h with ⟨m, hs, h⟩ | ⟨m, hs, _, h⟩ | ⟨u, hs, _, h⟩
    · rw [h] at hr
      simp only [List.mem_singleton] at hr
      subst hr
      cases hok
    · rw [h] at hr
      simp only [List.mem_singleton] at hr
      subst hr
      cases hok
    · obtain ⟨s, hv, hct⟩ := parseBase64_contentType _ p hp
      rw [h] at hr ⊢
      simp only [List.mem_singleton] at hr
      subst hr
      refine ⟨s, put0, hv, rfl, hs, rfl, ?_, ?_⟩
      · rw [h3]
        exact hct
      · refine ⟨fp ++ randToken env.draw8 ++ js "-" ++ randToken env.draw6, ?_⟩
        rw [h3]
        simp [makeKey]

/-- Witness of content_type_passthrough: a payload that declares text/html is stored
under a key that ends in .png with the ContentType text/html. -/
theorem content_type_passthrough_witness :
    (∃ s put, htmlRequest.imageBase64 = .str s ∧ (upload sampleEnv htmlRequest).puts = [put] ∧
      sampleEnv.s3Put put = none ∧
      (successResponse (js "ABCDEFGH-456789.png") (js "https://cdn.example/ABCDEFGH-456789.png")
        (js "text/html") 3).field "contentType" = some (.str put.contentType) ∧
      put.contentType =
        (match dataUriHead s with
         | some (m, _) => m
         | none => js "application/octet-stream") ∧
      ∃ stem, put.key = stem ++ js "." ++ resolveExt sampleEnv.mimeExtension put.contentType) ∧
    (upload sampleEnv htmlRequest).puts =
      [{ key := js "ABCDEFGH-456789.png", body := [60, 98, 62], contentType := js "text/html" }] :=
  ⟨content_type_passthrough sampleEnv htmlRequest
      (successResponse (js "ABCDEFGH-456789.png") (js "https://cdn.example/ABCDEFGH-456789.png")
        (js "text/html") 3) (by decide) (by decide),
   by decide⟩

/-! ## The base64 decoder -/

theorem isBase64Char_base64Symbol (v : Nat) : isBase64Char (base64Symbol v) = true := by
  simp only [isBase64Char, base64Symbol, Bool.or_eq_true, Bool.and_eq_true, decide_eq_true_eq,
    beq_iff_eq]
  split_ifs <;> omega

theorem unbase64_base64Symbol (v : Nat) (h : v < 64) : unbase64 (base64Symbol v) = some v := by
  simp only [unbase64, base64Symbol]
  split_ifs <;> first | omega | (simp only [Option.some.injEq]; omega)

theorem unbase64_of_isBase64Char (c : Nat) (h : isBase64Char c = true) :
    ∃ v, unbase64 c = some v := by
  simp only [isBase64Char, Bool.or_eq_true, Bool.and_eq_true, decide_eq_true_eq,
    beq_iff_eq] at h
  simp only [unbase64]
  split_ifs <;> first | exact ⟨_, rfl⟩ | omega

theorem sextets_cons_symbol (v : Nat) (h : v < 64) (cs : JsString) :
    sextets (base64Symbol v :: cs) = v :: sextets cs := by
  have hne : base64Symbol v ≠ padChar := isBase64Char_not_pad _ (isBase64Char_base64Symbol v)
  simp only [sextets, hne, if_false, unbase64_base64Symbol v h]

theorem sextets_pad_cons (cs : JsString) : sextets (padChar :: cs) = [] := by
  simp [sextets]

/-- On alphabet characters followed by padding the decoder reads the alphabet part. -/
theorem sextets_append_padding (a p : JsString) (ha : ∀ c ∈ a, isBase64Char c = true)
    (hp : ∀ c ∈ p, c = padChar) : sextets (a ++ p) = sextets a := by
  induction a with
  | nil =>
    cases p with
    | nil => rfl
    | cons c cs =>
      have : c = padChar := hp c (List.mem_cons_self _ _)
      subst this
      simp [sextets]
  | cons c cs ih =>
    have hc := ha c (List.mem_cons_self _ _)
    have hne := isBase64Char_not_pad c hc
    obtain ⟨v, hv⟩ := unbase64_of_isBase64Char c hc
    have ih' := ih (fun d hd => ha d (List.mem_cons_of_mem _ hd))
    show sextets (c :: (cs ++ p)) = sextets (c :: cs)
    simp only [sextets, hne, if_false, hv, ih']

theorem sextets_length (a : JsString) (ha : ∀ c ∈ a, isBase64Char c = true) :
    (sextets a).length = a.length := by
  induction a with
  | nil => rfl
  | cons c cs ih =>
    have hc := ha c (List.mem_cons_self _ _)
    have hne := isBase64Char_not_pad c hc
    obtain ⟨v, hv⟩ := unbase64_of_isBase64Char c hc
    simp only [sextets, hne, if_false, hv, List.length_cons]
    rw [ih (fun d hd => ha d (List.mem_cons_of_mem _ hd))]

theorem packSextets_length (l : List Nat) : (packSextets l).length = 3 * l.length / 4 := by
  induction l using packSextets.induct with
  | case1 a b c d rest ih =>
    simp only [packSextets, List.length_cons, ih]
    omega
  | case2 a b c => simp [packSextets]
  | case3 a b => simp [packSextets]
  | case4 l h1 h2 h3 =>
    match l, h1, h2, h3 with
    | [], _, _, _ => simp [packSextets]
    | [a], _, _, _ => simp [packSextets]
    | [a, b], _, _, h3 => exact absurd rfl (h3 a b)
    | [a, b, c], _, h2, _ => exact absurd rfl (h2 a b c)
    | a :: b :: c :: d :: rest, h1, _, _ => exact absurd rfl (h1 a b c d rest)

/-- Decoding inverts the standard padded encoding of bytes. -/
theorem bufferFromBase64_base64Encode (b : List Nat) (hb : ∀ x ∈ b, x < 256) :
    bufferFromBase64 (base64Encode b) = b := by
  unfold bufferFromBase64
  induction b using base64Encode.induct with
  | case1 x y z rest ih =>
    have hx := hb x (by simp)
    have hy := hb y (by simp)
    have hz := hb z (by simp)
    have hrest : ∀ w ∈ rest, w < 256 := fun w hw => hb w (by simp [hw])
    simp only [base64Encode]
    rw [sextets_cons_symbol _ (by omega), sextets_cons_symbol _ (by omega),
      sextets_cons_symbol _ (by omega), sextets_cons_symbol _ (by omega)]
    simp only [packSextets, ih hrest]
    congr 1
    · omega
    · congr 1
      · omega
      · congr 1
        omega
  | case2 x y =>
    have hx := hb x (by simp)
    have hy := hb y (by simp)
    simp only [base64Encode]
    rw [sextets_cons_symbol _ (by omega), sextets_cons_symbol _ (by omega),
      sextets_cons_symbol _ (by omega), sextets_pad_cons]
    simp only [packSextets]
    congr 1
    · omega
    · congr 1
      omega
  | case3 x =>
    have hx := hb x (by simp)
    simp only [base64Encode]
    rw [sextets_cons_symbol _ (by omega), sextets_cons_symbol _ (by omega), sextets_pad_cons]
    simp only [packSextets]
    congr 1
    omega
  | case4 => rfl

theorem base64Tail_base64Encode (b : List Nat) : base64Tail (base64Encode b) = true := by
  induction b using base64Encode.induct with
  | case1 x y z rest ih => simp [base64Encode, base64Tail, isBase64Char_base64Symbol, ih]
  | case2 x y =>
    simp [base64Encode, base64Tail, isBase64Char_base64Symbol, allPadding]
  | case3 x =>
    simp [base64Encode, base64Tail, isBase64Char_base64Symbol, allPadding]
  | case4 => rfl

theorem isValidBase64_base64Encode (b : List Nat) (hb : b ≠ []) :
    isValidBase64 (base64Encode b) = true := by
  have h := base64Tail_base64Encode b
  match b, hb with
  | [x], _ =>
    simp only [base64Encode, isValidBase64, base64Tail, isBase64Char_base64Symbol] at h ⊢
    simpa using h
  | [x, y], _ =>
    simp only [base64Encode, isValidBase64, base64Tail, isBase64Char_base64Symbol] at h ⊢
    simpa using h
  | x :: y :: z :: rest, _ =>
    simp only [base64Encode, isValidBase64, base64Tail, isBase64Char_base64Symbol] at h ⊢
    simpa using h

theorem base64Encode_ne_nil (b : List Nat) (hb : b ≠ []) : base64Encode b ≠ [] := by
  match b, hb with
  | [x], _ => simp [base64Encode]
  | [x, y], _ => simp [base64Encode]
  | x :: y :: z :: rest, _ => simp [base64Encode]

/-! ## parseBase64 on well-formed payloads -/

theorem takeWhile_append_stop (q : Nat → Bool) (m : List Nat) (c : Nat) (r : List Nat)
    (hm : ∀ x ∈ m, q x = true) (hc : q c = false) :
    List.takeWhile q (m ++ c :: r) = m ∧ List.dropWhile q (m ++ c :: r) = c :: r := by
  induction m with
  | nil => simp [List.takeWhile, List.dropWhile, hc]
  | cons x xs ih =>
    have hx := hm x (List.mem_cons_self _ _)
    have ih' := ih (fun y hy => hm y (List.mem_cons_of_mem _ hy))
    simp [List.takeWhile, List.dropWhile, hx, ih'.1, ih'.2]

/-- The expression of parseBase64 recognises a data URI with a non-empty media type
made of class characters and a non-empty payload free of line terminators. -/
theorem matchDataUri_dataUri (m p : JsString) (hm : m ≠ [])
    (hmc : ∀ c ∈ m, isMediaTypeChar c = true) (hp : p ≠ [])
    (hpl : ∀ c ∈ p, isLineTerminator c = false) :
    matchDataUri (dataUri m p) = some (m, p) := by
  have hshape : dataUri m p = js "data:" ++ (m ++ 59 :: (js "base64," ++ p)) := by
    simp [dataUri, js]
  have htd := takeWhile_append_stop isMediaTypeChar m 59 (js "base64," ++ p) hmc (by decide)
  have hlit : (59 : Nat) :: (js "base64," ++ p) = js ";base64," ++ p := by simp [js]
  have hall : (p.all fun c => !isLineTerminator c) = true := by
    simp only [List.all_eq_true]
    intro c hc
    simp [hpl c hc]
  unfold matchDataUri
  rw [hshape, dropLiteral_append]
  simp only [htd.1, htd.2, hm, if_false]
  rw [hlit, dropLiteral_append]
  simp [hp, hall]

theorem parseBase64_plain_valid (t : JsString) (hv : isValidBase64 t = true) :
    parseBase64 (.str t) = .ok { buffer := bufferFromBase64 t, mimeType := [] } := by
  have hne : t ≠ [] := by
    intro e
    subst e
    cases hv
  have hchars := isValidBase64_chars t hv
  have hstrip : stripWhitespace t = t := by
    apply stripWhitespace_eq_self
    intro c hc
    rcases hchars c hc with h | h
    · exact isBase64Char_not_whitespace c h
    · subst h; decide
  rw [parseBase64_of_no_match t hne (matchDataUri_none_of_no_colon t (colon_not_mem_of_valid t hv)),
    hstrip, hv]
  rfl

/-- C1, counterexample.  The empty byte sequence encodes to the empty string, and
parseBase64 throws both on it and on a data URI with that empty payload; it also
throws on a data URI with the empty media type, which is made of allowed characters
only. -/
theorem base64_round_trip_counterexample :
    parseBase64 (.str (base64Encode [])) = .error (js "Empty base64 string") ∧
    parseBase64 (.str (dataUri (js "image/png") (base64Encode [])))
      = .error (js "Invalid base64 data") ∧
    parseBase64 (.str (dataUri [] (base64Encode [65, 66, 67])))
      = .error (js "Invalid base64 data") := by
  decide

/-- C1, amended.  For every non-empty byte sequence b and every non-empty media type m
made of the characters that the head allows, parseBase64 succeeds on the standard
padded base64 encoding of b and on data:m;base64, followed by that encoding; both
buffers equal b byte for byte, and the second result has mimeType m. -/
theorem base64_round_trip (b : List Nat) (m : JsString) (hb : b ≠ [])
    (hbytes : ∀ x ∈ b, x < 256) (hm : m ≠ []) (hmc : ∀ c ∈ m, isMediaTypeChar c = true) :
    parseBase64 (.str (base64Encode b)) = .ok { buffer := b, mimeType := [] } ∧
    parseBase64 (.str (dataUri m (base64Encode b))) = .ok { buffer := b, mimeType := m } := by
  have hv := isValidBase64_base64Encode b hb
  have hdec := bufferFromBase64_base64Encode b hbytes
  have hchars := isValidBase64_chars _ hv
  have hstrip : stripWhitespace (base64Encode b) = base64Encode b := by
    apply stripWhitespace_eq_self
    intro c hc
    rcases hchars c hc with h | h
    · exact isBase64Char_not_whitespace c h
    · subst h; decide
  have hlt : ∀ c ∈ base64Encode b, isLineTerminator c = false := by
    intro c hc
    rcases hchars c hc with h | h
    · exact isBase64Char_not_lineTerminator c h
    · subst h; decide
  constructor
  · rw [parseBase64_plain_valid _ hv, hdec]
  · rw [parseBase64_of_match _ m _
      (matchDataUri_dataUri m _ hm hmc (base64Encode_ne_nil b hb) hlt), hstrip, hv, hdec]
    rfl

/-- Witness of base64_round_trip: the eight bytes of scenario 1 and the type image/png. -/
theorem base64_round_trip_witness :
    parseBase64 (.str (base64Encode [137, 80, 78, 71, 13, 10, 26, 10]))
      = .ok { buffer := [137, 80, 78, 71, 13, 10, 26, 10], mimeType := [] } ∧
    parseBase64 (.str (dataUri (js "image/png") (base64Encode [137, 80, 78, 71, 13, 10, 26, 10])))
      = .ok { buffer := [137, 80, 78, 71, 13, 10, 26, 10], mimeType := js "image/png" } :=
  base64_round_trip [137, 80, 78, 71, 13, 10, 26, 10] (js "image/png") (by decide) (by decide)
    (by decide) (by decide)

/-- C3, counterexample.  Inputs whose length is not a multiple of four or whose padding
is malformed are decoded instead of rejected: QUJDR has a dangling fifth character
that is dropped, QQ= lacks one padding character, QQ=== has three. -/
theorem exact_decoding_counterexample :
    parseBase64 (.str (js "QUJDR")) = .ok { buffer := [65, 66, 67], mimeType := [] } ∧
    parseBase64 (.str (js "QQ=")) = .ok { buffer := [65], mimeType := [] } ∧
    parseBase64 (.str (js "QQ===")) = .ok { buffer := [65], mimeType := [] } := by
  decide

/-- C3, amended.  Decoding is lenient: for every input made of one or more base64
alphabet characters followed by any number of = characters, whatever its length and
its padding, parseBase64 succeeds; the buffer is decoded from the alphabet characters
alone and has 3n/4 bytes, rounded down, for n alphabet characters, so that a dangling
single character of the last group is dropped without an error. -/
theorem lenient_decoding (a p : JsString) (ha : a ≠ [])
    (hac : ∀ c ∈ a, isBase64Char c = true) (hp : ∀ c ∈ p, c = padChar) :
    parseBase64 (.str (a ++ p)) = .ok { buffer := packSextets (sextets a), mimeType := [] } ∧
    (packSextets (sextets a)).length = 3 * a.length / 4 := by
  have htail : ∀ l : JsString, (∀ c ∈ l, isBase64Char c = true) → base64Tail (l ++ p) = true := by
    intro l hl
    induction l with
    | nil =>
      cases p with
      | nil => rfl
      | cons c cs =>
        have hc : c = padChar := hp c (List.mem_cons_self _ _)
        have hcs : allPadding cs = true :=
          (allPadding_iff cs).mpr (fun d hd => hp d (List.mem_cons_of_mem _ hd))
        subst hc
        have hnb : isBase64Char padChar = false := by decide
        simp [base64Tail, hcs, hnb]
    | cons c cs ih =>
      have hc := hl c (List.mem_cons_self _ _)
      have ih' := ih (fun d hd => hl d (List.mem_cons_of_mem _ hd))
      simp only [List.cons_append, base64Tail, hc, if_true]
      exact ih'
  have hv : isValidBase64 (a ++ p) = true := by
    cases a with
    | nil => exact absurd rfl ha
    | cons c cs =>
      have hc := hac c (List.mem_cons_self _ _)
      simp only [List.cons_append, isValidBase64, hc, Bool.true_and]
      exact htail cs (fun d hd => hac d (List.mem_cons_of_mem _ hd))
  constructor
  · rw [parseBase64_plain_valid _ hv]
    simp only [bufferFromBase64, sextets_append_padding a p hac hp]
  · rw [packSextets_length, sextets_length a hac]

/-- Witness of lenient_decoding: five alphabet characters and three padding characters. -/
theorem lenient_decoding_witness :
    parseBase64 (.str (js "QUJDR" ++ js "==="))
      = .ok { buffer := packSextets (sextets (js "QUJDR")), mimeType := [] } ∧
    (packSextets (sextets (js "QUJDR"))).length = 3 * (js "QUJDR").length / 4 :=
  lenient_decoding (js "QUJDR") (js "===") (by decide) (by decide) (by decide)

/-- C10, the failing input.  A data URI whose payload is wrapped with a line feed is
rejected, although the same payload without the line feed is accepted and the same
wrapped payload without the head is accepted too. -/
theorem line_wrapped_data_uri_rejected :
    parseBase64 (.str (js "data:image/png;base64,QUJD\nREVG"))
      = .error (js "Invalid base64 data") ∧
    parseBase64 (.str (js "data:image/png;base64,QUJDREVG"))
      = .ok { buffer := [65, 66, 67, 68, 69, 70], mimeType := js "image/png" } ∧
    parseBase64 (.str (js "QUJD\nREVG"))
      = .ok { buffer := [65, 66, 67, 68, 69, 70], mimeType := [] } := by
  decide

/-! ## joinUrl -/

theorem dropWhile_append_singleton (q : Nat → Bool) (l : List Nat) (c : Nat) :
    List.dropWhile q (l ++ [c]) =
      if l.all q = true then List.dropWhile q [c] else List.dropWhile q l ++ [c] := by
  induction l with
  | nil => simp
  | cons x xs ih =>
    by_cases hx : q x = true
    · simp only [List.cons_append, List.dropWhile_cons_of_pos hx, ih, List.all_cons, hx,
        Bool.true_and]
    · simp [List.dropWhile, hx]

theorem removeTrailingSlashes_cons (c : Nat) (cs : JsString) :
    removeTrailingSlashes (c :: cs) =
      if c = slash ∧ cs.all (fun d => d == slash) = true then []
      else c :: removeTrailingSlashes cs := by
  simp only [removeTrailingSlashes, List.reverse_cons, dropWhile_append_singleton]
  by_cases hall : cs.all (fun d => d == slash) = true
  · have hrev : (cs.reverse.all fun d => d == slash) = true := by
      simpa using hall
    have hnil : List.dropWhile (fun d => d == slash) cs.reverse = [] := by
      rw [List.dropWhile_eq_nil_iff]
      intro x hx
      exact List.all_eq_true.mp hrev x hx
    by_cases hc : c = slash
    · simp [hrev, hall, hc]
    · simp [hrev, hall, hc, hnil]
  · have hrev : ¬ (cs.reverse.all fun d => d == slash) = true := by
      simpa using hall
    simp [hrev, hall]

/-- The replace call of joinUrl removes exactly the trailing slashes. -/
theorem stripTrailingSlashes_eq (s : JsString) :
    stripTrailingSlashes s = removeTrailingSlashes s := by
  induction s with
  | nil => rfl
  | cons c cs ih =>
    rw [removeTrailingSlashes_cons, stripTrailingSlashes, ih]

theorem joinSlash_eq_intercalate (segs : List JsString) :
    joinSlash segs = List.intercalate (js "/") segs := by
  induction segs with
  | nil => rfl
  | cons seg rest ih =>
    cases rest with
    | nil => simp [joinSlash, List.intercalate, List.intersperse]
    | cons seg2 rest2 =>
      simp only [joinSlash]
      rw [ih]
      simp [List.intercalate, List.intersperse, js, slash]

/-- The function joinUrl computes the URL that the specification describes. -/
theorem joinUrl_eq_spec (base key : JsString) : joinUrl base key = joinUrlSpec base key := by
  unfold joinUrl joinUrlSpec
  cases h : encodeSegments (splitSlash key) with
  | none => rfl
  | some segs =>
    simp only [Option.map_some']
    rw [stripTrailingSlashes_eq, joinSlash_eq_intercalate]
    simp [js, slash]

/-! ## encodeURIComponent -/

theorem encodeURIComponent_cons (c : Nat) (cs : JsString) :
    encodeURIComponent (c :: cs) =
      if isUriUnreserved c then (encodeURIComponent cs).map (fun r => c :: r)
      else if isLowSurrogate c then none
      else if isHighSurrogate c then
        match cs with
        | [] => none
        | d :: ds =>
          if isLowSurrogate d then
            (encodeURIComponent ds).map (fun r =>
              ((utf8Octets ((c - 55296) * 1024 + (d - 56320) + 65536)).map percentOctet).flatten
                ++ r)
          else none
      else (encodeURIComponent cs).map
        (fun r => ((utf8Octets c).map percentOctet).flatten ++ r) := by
  cases cs <;> rfl

theorem isWellFormed_cons (c : Nat) (cs : JsString) :
    isWellFormed (c :: cs) =
      if isLowSurrogate c then false
      else if isHighSurrogate c then
        match cs with
        | [] => false
        | d :: ds => isLowSurrogate d && isWellFormed ds
      else isWellFormed cs := by
  cases cs <;> rfl

theorem slash_not_mem_percentOctets (l : List Nat) :
    slash ∉ (l.map percentOctet).flatten := by
  simp only [List.mem_flatten, List.mem_map, not_exists, not_and]
  intro seg hseg
  obtain ⟨b, _, rfl⟩ := hseg
  simp only [percentOctet, hexDigit, slash, List.mem_cons, List.mem_singleton, List.not_mem_nil,
    or_false, not_or]
  refine ⟨by decide, ?_, ?_⟩ <;> split_ifs <;> omega

theorem isUriUnreserved_ne_slash (c : Nat) (h : isUriUnreserved c = true) : c ≠ slash := by
  intro e
  subst e
  revert h
  decide

/-- No escape and no unreserved character is a slash. -/
theorem slash_not_mem_encodeURIComponent (s e : JsString)
    (h : encodeURIComponent s = some e) : slash ∉ e := by
  induction s using encodeURIComponent.induct generalizing e with
  | case1 =>
    simp only [encodeURIComponent, Option.some.injEq] at h
    subst h
    simp
  | case2 c cs hu ih =>
    rw [encodeURIComponent_cons] at h
    simp only [hu, if_true, Option.map_eq_some'] at h
    obtain ⟨r, hr, rfl⟩ := h
    simp only [List.mem_cons, not_or]
    exact ⟨fun e => isUriUnreserved_ne_slash c hu e.symm, ih r hr⟩
  | case3 c cs hu hl =>
    rw [encodeURIComponent_cons] at h
    simp [hu, hl] at h
  | case4 c hu hl hh =>
    rw [encodeURIComponent_cons] at h
    simp [hu, hl, hh] at h
  | case5 c hu hl hh d ds hd ih =>
    rw [encodeURIComponent_cons] at h
    cases hr : encodeURIComponent ds with
    | none => simp [hu, hl, hh, hd, hr] at h
    | some r =>
      simp only [hu, hl, hh, hd, hr, if_true, Bool.false_eq_true, if_false, Option.map_some',
        Option.some.injEq] at h
      subst h
      simp only [List.mem_append, not_or]
      exact ⟨slash_not_mem_percentOctets _, ih r hr⟩
  | case6 c hu hl hh d ds hd =>
    rw [encodeURIComponent_cons] at h
    simp [hu, hl, hh, hd] at h
  | case7 c cs hu hl hh ih =>
    rw [encodeURIComponent_cons] at h
    cases hr : encodeURIComponent cs with
    | none => simp [hu, hl, hh, hr] at h
    | some r =>
      simp only [hu, hl, hh, hr, Bool.false_eq_true, if_false, Option.map_some',
        Option.some.injEq] at h
      subst h
      simp only [List.mem_append, not_or]
      exact ⟨slash_not_mem_percentOctets _, ih r hr⟩

theorem isUriUnreserved_not_surrogate (c : Nat) (h : isUriUnreserved c = true) :
    isLowSurrogate c = false ∧ isHighSurrogate c = false := by
  simp only [isUriUnreserved, Bool.or_eq_true, Bool.and_eq_true, decide_eq_true_eq,
    beq_iff_eq] at h
  simp only [isLowSurrogate, isHighSurrogate, Bool.and_eq_false_iff, decide_eq_false_iff_not]
  omega

/-- The call encodeURIComponent returns exactly on well-formed strings. -/
theorem encodeURIComponent_isSome (s : JsString) :
    (encodeURIComponent s).isSome = isWellFormed s := by
  induction s using encodeURIComponent.induct with
  | case1 => rfl
  | case2 c cs hu ih =>
    have hs := isUriUnreserved_not_surrogate c hu
    rw [encodeURIComponent_cons, isWellFormed_cons]
    simp [hu, hs.1, hs.2, ih]
  | case3 c cs hu hl =>
    rw [encodeURIComponent_cons, isWellFormed_cons]
    simp [hu, hl]
  | case4 c hu hl hh =>
    rw [encodeURIComponent_cons, isWellFormed_cons]
    simp [hu, hl, hh]
  | case5 c hu hl hh d ds hd ih =>
    rw [encodeURIComponent_cons, isWellFormed_cons]
    simp [hu, hl, hh, hd, ih]
  | case6 c hu hl hh d ds hd =>
    rw [encodeURIComponent_cons, isWellFormed_cons]
    simp [hu, hl, hh, hd]
  | case7 c cs hu hl hh ih =>
    rw [encodeURIComponent_cons, isWellFormed_cons]
    simp [hu, hl, hh, ih]

theorem splitSlash_cons_of_ne (c : Nat) (cs : JsString) (h : c ≠ slash) :
    ∃ seg rest, splitSlash cs = seg :: rest ∧ splitSlash (c :: cs) = (c :: seg) :: rest := by
  cases hs : splitSlash cs with
  | nil => exact absurd hs (splitSlash_ne_nil cs)
  | cons seg rest =>
    refine ⟨seg, rest, rfl, ?_⟩
    simp [splitSlash, h, hs]

theorem surrogate_ne_slash (c : Nat) (h : isLowSurrogate c = true ∨ isHighSurrogate c = true) :
    c ≠ slash := by
  simp only [isLowSurrogate, isHighSurrogate, Bool.and_eq_true, decide_eq_true_eq] at h
  simp only [slash]
  omega

/-- A string is well formed exactly when each of its segments is: a slash never
stands inside a surrogate pair. -/
theorem isWellFormed_splitSlash (s : JsString) :
    (splitSlash s).all isWellFormed = isWellFormed s := by
  induction s using isWellFormed.induct with
  | case1 => rfl
  | case2 c cs hl =>
    obtain ⟨seg, rest, _, h2⟩ := splitSlash_cons_of_ne c cs (surrogate_ne_slash c (Or.inl hl))
    rw [h2, List.all_cons, isWellFormed_cons c seg, isWellFormed_cons c cs]
    simp [hl]
  | case3 c hl hh =>
    have hne := surrogate_ne_slash c (Or.inr hh)
    simp [splitSlash, hne]
  | case4 c hl hh d ds ih =>
    have hne := surrogate_ne_slash c (Or.inr hh)
    by_cases hd : isLowSurrogate d = true
    · have hdne := surrogate_ne_slash d (Or.inl hd)
      obtain ⟨seg, rest, h1, h2⟩ := splitSlash_cons_of_ne d ds hdne
      obtain ⟨seg', rest', h1', h2'⟩ := splitSlash_cons_of_ne c (d :: ds) hne
      rw [h2] at h1'
      cases h1'
      rw [h1] at ih
      simp only [List.all_cons] at ih
      rw [h2', List.all_cons, isWellFormed_cons c (d :: seg), isWellFormed_cons c (d :: ds)]
      simp only [hl, hh, hd, if_true, Bool.true_and, Bool.false_eq_true, if_false]
      exact ih
    · obtain ⟨seg', rest', h1', h2'⟩ := splitSlash_cons_of_ne c (d :: ds) hne
      have hseg : ∃ t, seg' = [] ∨ seg' = d :: t := by
        by_cases hds : d = slash
        · simp only [splitSlash, hds, if_true] at h1'
          cases h1'
          exact ⟨[], Or.inl rfl⟩
        · obtain ⟨seg, rest, _, h2⟩ := splitSlash_cons_of_ne d ds hds
          rw [h2] at h1'
          cases h1'
          exact ⟨seg, Or.inr rfl⟩
      rw [h2', List.all_cons, isWellFormed_cons c seg', isWellFormed_cons c (d :: ds)]
      obtain ⟨t, ht | ht⟩ := hseg
      · simp [ht, hl, hh, hd]
      · simp [ht, hl, hh, hd]
  | case5 c cs hl hh ih =>
    by_cases hc : c = slash
    · simp only [splitSlash, hc, if_true, List.all_cons] at ih ⊢
      rw [ih, isWellFormed_cons]
      have h1 : isLowSurrogate slash = false := by decide
      have h2 : isHighSurrogate slash = false := by decide
      simp [h1, h2, isWellFormed]
    · obtain ⟨seg, rest, h1, h2⟩ := splitSlash_cons_of_ne c cs hc
      rw [h1] at ih
      simp only [List.all_cons] at ih
      rw [h2, List.all_cons, isWellFormed_cons c seg, isWellFormed_cons c cs]
      simp only [hl, hh, Bool.false_eq_true, if_false]
      exact ih

/-! ## joinUrl: the structure of the path -/

theorem encodeSegments_forall₂ (segs es : List JsString) (h : encodeSegments segs = some es) :
    List.Forall₂ (fun seg e => encodeURIComponent seg = some e) segs es := by
  induction segs generalizing es with
  | nil =>
    simp only [encodeSegments, Option.some.injEq] at h
    subst h
    exact List.Forall₂.nil
  | cons seg rest ih =>
    simp only [encodeSegments] at h
    cases he : encodeURIComponent seg with
    | none => simp [he] at h
    | some e =>
      cases hr : encodeSegments rest with
      | none => simp [he, hr] at h
      | some es' =>
        simp only [he, hr, Option.map_some', Option.some.injEq] at h
        subst h
        exact List.Forall₂.cons he (ih es' hr)

theorem forall₂_encoded_of_mem (segs es : List JsString)
    (h : List.Forall₂ (fun seg e => encodeURIComponent seg = some e) segs es) :
    ∀ e ∈ es, ∃ seg, encodeURIComponent seg = some e := by
  induction h with
  | nil => simp
  | cons hhead _ ih =>
    intro e he
    rcases List.mem_cons.mp he with rfl | he
    · exact ⟨_, hhead⟩
    · exact ih e he

theorem encodeSegments_isSome (segs : List JsString) :
    (encodeSegments segs).isSome = segs.all isWellFormed := by
  induction segs with
  | nil => rfl
  | cons seg rest ih =>
    simp only [encodeSegments, List.all_cons, ← encodeURIComponent_isSome seg, ← ih]
    cases he : encodeURIComponent seg with
    | none => simp
    | some e => cases hr : encodeSegments rest <;> simp

theorem countSlash_splitSlash (key : JsString) :
    countSlash key + 1 = (splitSlash key).length := by
  induction key with
  | nil => rfl
  | cons c cs ih =>
    by_cases hc : c = slash
    · simp only [countSlash, hc, List.count_cons_self, splitSlash, if_true, List.length_cons]
      simp only [countSlash] at ih
      omega
    · obtain ⟨seg, rest, h1, h2⟩ := splitSlash_cons_of_ne c cs hc
      rw [h2]
      rw [h1] at ih
      simp only [countSlash, List.length_cons] at ih ⊢
      rw [List.count_cons_of_ne (fun e => hc e.symm)]
      exact ih

theorem countSlash_joinSlash (es : List JsString) (hne : es ≠ [])
    (h : ∀ e ∈ es, slash ∉ e) : countSlash (joinSlash es) + 1 = es.length := by
  induction es with
  | nil => exact absurd rfl hne
  | cons e rest ih =>
    have he : List.count slash e = 0 := List.count_eq_zero.mpr (h e (List.mem_cons_self _ _))
    cases rest with
    | nil => simp [joinSlash, countSlash, he]
    | cons e2 rest2 =>
      have ih' := ih (by simp) (fun x hx => h x (List.mem_cons_of_mem _ hx))
      simp only [joinSlash, countSlash, List.count_append, List.count_cons_self, he,
        List.length_cons] at ih' ⊢
      omega

/-- C8, counterexample.  A key with a surrogate outside a pair makes encodeURIComponent
throw, so joinUrl returns no URL; the handler reaches that case for the folder made of
the one code unit D800, after the object was written, and answers 400. -/
theorem joinUrl_counterexample :
    joinUrl (js "https://cdn.example/") [55296] = none ∧
    (upload sampleEnv { pngRequest with folder := .str [55296] }).puts.map (fun p => p.key)
      = [[55296] ++ js "/ABCDEFGH-456789.png"] ∧
    (upload sampleEnv { pngRequest with folder := .str [55296] }).responses
      = [{ status := 400, body := [("ok", .bool false), ("error", .str (js "URI malformed"))] }] := by
  decide

/-- C8, amended.  For every base and key, joinUrl computes what the specification
describes and returns a URL exactly when the key is well formed (it throws for a key
with a surrogate outside a pair).  For every base and every well-formed key the URL is
the base with all trailing slashes removed, a slash, and the segments of the key each
percent-encoded on its own and joined with slashes; the encoded key has exactly as
many slashes as the key and no encoded segment contains a slash. -/
theorem joinUrl_structure (base key : JsString) :
    joinUrl base key = joinUrlSpec base key ∧
    ((joinUrl base key).isSome = isWellFormed key) ∧
    (isWellFormed key = true →
      ∃ segs, List.Forall₂ (fun seg e => encodeURIComponent seg = some e) (splitSlash key) segs ∧
        joinUrl base key = some (removeTrailingSlashes base ++ js "/" ++ joinSlash segs) ∧
        countSlash (joinSlash segs) = countSlash key ∧
        ∀ e ∈ segs, slash ∉ e) := by
  have hsome : (joinUrl base key).isSome = isWellFormed key := by
    rw [← isWellFormed_splitSlash, ← encodeSegments_isSome]
    unfold joinUrl
    cases encodeSegments (splitSlash key) <;> rfl
  refine ⟨joinUrl_eq_spec base key, hsome, ?_⟩
  intro hk
  have hs : (encodeSegments (splitSlash key)).isSome = true := by
    rw [encodeSegments_isSome, isWellFormed_splitSlash, hk]
  cases hseg : encodeSegments (splitSlash key) with
  | none => rw [hseg] at hs; cases hs
  | some segs =>
    have hf := encodeSegments_forall₂ _ _ hseg
    have hno : ∀ e ∈ segs, slash ∉ e := by
      intro e he
      obtain ⟨seg, hse⟩ := forall₂_encoded_of_mem _ _ hf e he
      exact slash_not_mem_encodeURIComponent seg e hse
    refine ⟨segs, hf, ?_, ?_, hno⟩
    · unfold joinUrl
      rw [hseg, stripTrailingSlashes_eq]
      simp [js, slash]
    · have hlen := hf.length_eq
      have hne : segs ≠ [] := by
        intro e
        rw [e] at hlen
        exact splitSlash_ne_nil key (List.length_eq_zero.mp hlen)
      have h1 := countSlash_splitSlash key
      have h2 := countSlash_joinSlash segs hne hno
      omega

/-- Witness of joinUrl_structure: a base with trailing slashes and a key with a space
and a letter outside ASCII. -/
theorem joinUrl_structure_witness :
    ∃ segs, List.Forall₂ (fun seg e => encodeURIComponent seg = some e)
        (splitSlash (js "a b/ü/c.png")) segs ∧
      joinUrl (js "https://cdn.example//") (js "a b/ü/c.png")
        = some (removeTrailingSlashes (js "https://cdn.example//") ++ js "/" ++ joinSlash segs) ∧
      countSlash (joinSlash segs) = countSlash (js "a b/ü/c.png") ∧
      ∀ e ∈ segs, slash ∉ e :=
  (joinUrl_structure (js "https://cdn.example//") (js "a b/ü/c.png")).2.2 (by decide)

/-- The URL of the witness, evaluated. -/
theorem joinUrl_example :
    joinUrl (js "https://cdn.example//") (js "a b/ü/c.png")
      = some (js "https://cdn.example/a%20b/%C3%BC/c.png") := by
  decide

/-! ## Whitespace in the payload -/

/-- Whitespace tolerance as far as it holds.  For every valid base64 text t and every
input w that is t with whitespace inserted, parseBase64 returns on w what it returns on
t; behind a head data:m;base64, the same holds when w has no line terminator. -/
theorem whitespace_tolerance (t w m : JsString) (hw : stripWhitespace w = t)
    (hv : isValidBase64 t = true) :
    parseBase64 (.str t) = .ok { buffer := bufferFromBase64 t, mimeType := [] } ∧
    parseBase64 (.str w) = .ok { buffer := bufferFromBase64 t, mimeType := [] } ∧
    (m ≠ [] → (∀ c ∈ m, isMediaTypeChar c = true) → (∀ c ∈ w, isLineTerminator c = false) →
      parseBase64 (.str (dataUri m w)) = .ok { buffer := bufferFromBase64 t, mimeType := m }) := by
  have hwne : w ≠ [] := by
    intro e
    subst e
    subst hw
    cases hv
  have hcolon : (58 : Nat) ∉ w := by
    intro hmem
    have := colon_mem_stripWhitespace w hmem
    rw [hw] at this
    exact colon_not_mem_of_valid t hv this
  refine ⟨parseBase64_plain_valid t hv, ?_, ?_⟩
  · rw [parseBase64_of_no_match w hwne (matchDataUri_none_of_no_colon w hcolon), hw, hv]
    rfl
  · intro hm hmc hlt
    rw [parseBase64_of_match _ m w (matchDataUri_dataUri m w hm hmc hwne hlt), hw, hv]
    rfl

/-- Witness of whitespace_tolerance: a payload wrapped with a carriage return and a
line feed, and the same payload with a space and a tab behind a head. -/
theorem whitespace_tolerance_witness :
    parseBase64 (.str (js "QUJD\r\nREVG"))
      = .ok { buffer := bufferFromBase64 (js "QUJDREVG"), mimeType := [] } ∧
    parseBase64 (.str (dataUri (js "image/png") (js "QUJD \tREVG")))
      = .ok { buffer := bufferFromBase64 (js "QUJDREVG"), mimeType := js "image/png" } :=
  ⟨(whitespace_tolerance (js "QUJDREVG") (js "QUJD\r\nREVG") (js "image/png")
      (by decide) (by decide)).2.1,
   (whitespace_tolerance (js "QUJDREVG") (js "QUJD \tREVG") (js "image/png")
      (by decide) (by decide)).2.2 (by decide) (by decide) (by decide)⟩


/-- The head of a data URI with a non-empty media type made of class characters is
recognised whatever follows it. -/
theorem dataUriHead_dataUri (m p : JsString) (hm : m ≠ [])
    (hmc : ∀ c ∈ m, isMediaTypeChar c = true) : dataUriHead (dataUri m p) = some (m, p) := by
  have hshape : dataUri m p = js "data:" ++ (m ++ 59 :: (js "base64," ++ p)) := by
    simp [dataUri, js]
  have htd := takeWhile_append_stop isMediaTypeChar m 59 (js "base64," ++ p) hmc (by decide)
  have hlit : (59 : Nat) :: (js "base64," ++ p) = js ";base64," ++ p := by simp [js]
  unfold dataUriHead
  rw [hshape, dropLiteral_append]
  simp only [htd.1, htd.2, hm, if_false]
  rw [hlit, dropLiteral_append]

/-- The empty payload is rejected behind every head: parseBase64 throws on
data:m;base64, followed by nothing. -/
theorem parseBase64_empty_payload (m : JsString) (hm : m ≠ [])
    (hmc : ∀ c ∈ m, isMediaTypeChar c = true) :
    ∃ msg, parseBase64 (.str (dataUri m (base64Encode []))) = .error msg := by
  apply parseBase64_error_of_invalid
  simp only [encodedText, base64Encode, dataUriHead_dataUri m [] hm hmc]
  rfl

/-- Witness of parseBase64_empty_payload: the head of scenario 1 with nothing behind it. -/
theorem parseBase64_empty_payload_witness :
    ∃ msg, parseBase64 (.str (dataUri (js "image/png") (base64Encode []))) = .error msg :=
  parseBase64_empty_payload (js "image/png") (by decide) (by decide)

end UploadGateway
